import Mathlib

/-!
# Verification of the content realization core (`crates/typst/src/realize/mod.rs`)

This file gives a shallow embedding of the realization core of the typst
repository and proves properties of it.  The polymorphic `Content` node is
modelled as a header (span, label, location, preparation state, guards)
together with a body that is either a typed element, a sequence, or a styled
node, exactly mirroring the element / `SequenceElem` / `StyledElem` split of
the source.  External collaborator interfaces (the element registry, the
regex engine, the introspection locator, `BehavedBuilder`,
`StyleVecBuilder`) are not part of `src/`; they are modelled from the spec
as small explicit data, with a doc comment on each such definition.
-/

namespace Realize

/-- Page parity targeted by a pagebreak (`Parity` in the layout crate). -/
inductive Parity where
  | even
  | odd
deriving DecidableEq, Repr

/-- Behaviour classes of elements.  Modelled from the spec: `behave.rs` is
not part of the provided source; the spec lists the classes
weak/strong/supportive/destructive/invisible. -/
inductive Behaviour where
  | weakB (lvl : Nat)
  | strong
  | supportive
  | destructive
  | invisible
deriving DecidableEq, Repr

/-- The element kinds that the realization core distinguishes.  `custom`
stands for any further element kind of the registry. -/
inductive ElemKind where
  | text
  | space
  | parbreak
  | linebreak
  | smartQuote
  | h
  | boxK
  | pagebreak
  | page
  | par
  | equation
  | v
  | colbreak
  | meta
  | place
  | block
  | listItem
  | enumItem
  | termItem
  | list
  | enum
  | terms
  | cite
  | citeGroup
  | document
  | flow
  | heading
  | align
  | custom (n : Nat)
deriving DecidableEq, Repr

/-- The capability set of one content node, as queried through
`can::<dyn Cap>` in the source.  Modelled from the spec: the capability
registry itself is an external collaborator, so each node carries its own
capability record. -/
structure Caps where
  canShow : Bool
  canShowSet : Bool
  canSynthesize : Bool
  canLocatable : Bool
  canLayoutSingle : Bool
  canLayoutMultiple : Bool
  canLayoutMath : Bool
deriving DecidableEq, Repr

/-- The all-false capability record. -/
def Caps.none : Caps :=
  ⟨false, false, false, false, false, false, false⟩

/-- The header data every content node carries: source span (`none` is a
detached span), optional label, optional location, the `prepared` flag and
the guard set.  `needsPrep` is the oracle for the external
`Content::needs_preparation()` predicate of the foundations crate (not in
`src/`); marking a node prepared clears it, since the external predicate is
conjoined with `!is_prepared()`. -/
structure Header where
  span : Option Nat
  lbl : Option Nat
  loc : Option Nat
  prepared : Bool
  guards : List Nat
  needsPrep : Bool
deriving DecidableEq, Repr

/-- A fresh header: detached span, no label, no location, unprepared,
no guards. -/
def Header.fresh : Header :=
  ⟨none, none, none, false, [], false⟩

/-- A selector of a recipe: by element kind, by label, by regex over text,
or a composite selector that is not supported at the realize call site. -/
inductive Selector where
  | elemSel (k : ElemKind)
  | labelSel (l : Nat)
  | regexSel (pat : List Char)
  | otherSel
deriving DecidableEq, Repr

/-- A source diagnostic (`bail!`): span, message, hints. -/
structure Diag where
  span : Option Nat
  msg : String
  hints : List String
deriving DecidableEq, Repr

mutual

/-- A content node: header plus body, mirroring `Content` of the
foundations crate (every content is an element; sequences and styled nodes
are the special `SequenceElem` / `StyledElem` kinds). -/
inductive Content where
  | mk (hd : Header) (bd : Body)

/-- The body of a content node. -/
inductive Body where
  | elem (e : ElemData)
  | seqn (cs : List Content)
  | styled (c : Content) (m : Styles)

/-- Kind-specific element data.  `txt` is the string of a `TextElem`;
`weak`/`parity` are the fields of a `PagebreakElem` (`parity` doubles as the
`clear_to` field of a `PageElem`); `tight` is the tightness of
list/enum/terms elements; `blockFlag` is the `block` field of an
`EquationElem`; `synthesized` records that the external `Synthesize`
implementation ran; `behaviour` is the class reported by `Behave`;
`body` holds child contents (item bodies, flow children, ...); `showOut`
is the output of the external built-in `Show` implementation and
`showSetOut` the styles of the external `ShowSet` implementation (both
modelled from the spec as per-element data since those implementations are
outside `src/`). -/
inductive ElemData where
  | mk (kind : ElemKind) (caps : Caps) (txt : List Char) (weak : Bool)
      (parity : Option Parity) (tight : Bool) (blockFlag : Bool)
      (synthesized : Bool) (behaviour : Behaviour)
      (body : List Content) (showOut : Content) (showSetOut : Styles)

/-- A style map (`Styles`): a list of entries. -/
inductive Styles where
  | mk (entries : List Style)

/-- One entry of a style map: a set-rule property (carrying the element
kind it configures and its span, as consulted by `interruption`), the
metadata property attached during preparation (`MetaElem::set_data`), or a
recipe (show rule). -/
inductive Style where
  | property (of : ElemKind) (span : Option Nat)
  | metaProp (c : Content)
  | recipeS (r : Recipe)

/-- A recipe (show rule): optional selector, transform, span. -/
inductive Recipe where
  | mk (sel : Option Selector) (trans : Transformation) (span : Option Nat)

/-- The transform of a recipe.  `style` is a show-set rule.  The callable
transforms of the source are external user functions; they are modelled
first-order: a constant output, the identity, or wrapping the input in a
new element. -/
inductive Transformation where
  | style (s : Styles)
  | showConst (c : Content)
  | showId
  | showWrap (k : ElemKind)

end

deriving instance BEq for Content, Body, ElemData, Styles, Style, Recipe, Transformation

/-- The empty style map. -/
def Styles.empty : Styles := .mk []

/-- The entries of a style map. -/
def Styles.entries : Styles → List Style
  | .mk es => es

/-- `Styles::is_empty`. -/
def Styles.isEmptyS (s : Styles) : Bool :=
  s.entries.isEmpty

/-- `Styles::apply`: append the entries of the inner map. -/
def Styles.applyS (s inner : Styles) : Styles :=
  .mk (s.entries ++ inner.entries)

/-- `Styles::set`: push one entry. -/
def Styles.setS (s : Styles) (e : Style) : Styles :=
  .mk (s.entries ++ [e])

/-- The recipe carried by a style entry, if any. -/
def Style.recipeOf : Style → Option Recipe
  | .recipeS r => some r
  | _ => none

/-- The recipes of a style map, in entry order. -/
def Styles.recipes (s : Styles) : List Recipe :=
  s.entries.filterMap Style.recipeOf

/-- `Styles::interruption::<K>`: the span of the first set-rule property of
kind `K`, if one is present. -/
def Styles.interruption (s : Styles) (k : ElemKind) : Option (Option Nat) :=
  s.entries.findSome? fun e =>
    match e with
    | .property of sp => if of = k then some sp else none
    | _ => none

/-- A style chain: the list of style maps from innermost to outermost.
The ground (default) chain is the empty list. -/
structure StyleChain where
  links : List Styles
deriving Inhabited

/-- `StyleChain::chain`: extend the chain with a local map as the new
innermost link. -/
def StyleChain.chainWith (s : StyleChain) (m : Styles) : StyleChain :=
  ⟨m :: s.links⟩

/-- `StyleChain::recipes`: all recipes of the chain, innermost-first. -/
def StyleChain.recipes (s : StyleChain) : List Recipe :=
  s.links.flatMap Styles.recipes

/-- The header of a content node. -/
def Content.hd : Content → Header
  | .mk h _ => h

/-- The body of a content node. -/
def Content.bd : Content → Body
  | .mk _ b => b

/-- The element data of a content node whose body is an element. -/
def Content.elemData? : Content → Option ElemData
  | .mk _ (.elem e) => some e
  | _ => none

/-- The kind of an element data record. -/
def ElemData.kind : ElemData → ElemKind
  | .mk k _ _ _ _ _ _ _ _ _ _ _ => k

/-- The capability record of an element data record. -/
def ElemData.caps : ElemData → Caps
  | .mk _ c _ _ _ _ _ _ _ _ _ _ => c

/-- The text of an element data record. -/
def ElemData.txt : ElemData → List Char
  | .mk _ _ t _ _ _ _ _ _ _ _ _ => t

/-- The pagebreak weakness of an element data record. -/
def ElemData.weak : ElemData → Bool
  | .mk _ _ _ w _ _ _ _ _ _ _ _ => w

/-- The pagebreak parity / page `clear_to` field. -/
def ElemData.parity : ElemData → Option Parity
  | .mk _ _ _ _ p _ _ _ _ _ _ _ => p

/-- The tightness field of a list/enum/terms element. -/
def ElemData.tight : ElemData → Bool
  | .mk _ _ _ _ _ t _ _ _ _ _ _ => t

/-- The `block` field of an equation element. -/
def ElemData.blockFlag : ElemData → Bool
  | .mk _ _ _ _ _ _ b _ _ _ _ _ => b

/-- Whether the external `Synthesize` implementation ran on this element. -/
def ElemData.synthesized : ElemData → Bool
  | .mk _ _ _ _ _ _ _ s _ _ _ _ => s

/-- The behaviour class of an element data record. -/
def ElemData.behaviour : ElemData → Behaviour
  | .mk _ _ _ _ _ _ _ _ b _ _ _ => b

/-- The child contents of an element data record. -/
def ElemData.body : ElemData → List Content
  | .mk _ _ _ _ _ _ _ _ _ b _ _ => b

/-- The built-in show output of an element data record. -/
def ElemData.showOut : ElemData → Content
  | .mk _ _ _ _ _ _ _ _ _ _ s _ => s

/-- The built-in show-set styles of an element data record. -/
def ElemData.showSetOut : ElemData → Styles
  | .mk _ _ _ _ _ _ _ _ _ _ _ s => s

/-- `Content::func`: the element kind, when the body is a typed element.
Sequence and styled nodes report no user-selectable kind. -/
def Content.func? (c : Content) : Option ElemKind :=
  (c.elemData?).map ElemData.kind

/-- `content.is::<K>()`: kind test. -/
def Content.isK (c : Content) (k : ElemKind) : Bool :=
  c.func? = some k

/-- Capability query `can::<dyn Cap>` through a projection of `Caps`.
Sequence and styled nodes implement no capabilities. -/
def Content.canC (c : Content) (p : Caps → Bool) : Bool :=
  match c.elemData? with
  | some e => p e.caps
  | none => false

/-- `Content::label`. -/
def Content.lbl (c : Content) : Option Nat := c.hd.lbl

/-- `Content::location`. -/
def Content.loc (c : Content) : Option Nat := c.hd.loc

/-- `Content::span`. -/
def Content.span (c : Content) : Option Nat := c.hd.span

/-- `Content::is_prepared`. -/
def Content.isPrepared (c : Content) : Bool := c.hd.prepared

/-- The oracle for the external `Content::needs_preparation()`. -/
def Content.needsPrep (c : Content) : Bool := c.hd.needsPrep

/-- `Content::is_guarded(Guard(n))`. -/
def Content.isGuarded (c : Content) (n : Nat) : Bool :=
  c.hd.guards.contains n

/-- `Content::guarded(Guard(n))`: add a guard. -/
def Content.guarded (c : Content) (n : Nat) : Content :=
  .mk { c.hd with guards := n :: c.hd.guards } c.bd

/-- `Content::mark_prepared`.  Also clears the `needs_preparation` oracle,
since the external predicate is conjoined with `!is_prepared()`. -/
def Content.markPrepared (c : Content) : Content :=
  .mk { c.hd with prepared := true, needsPrep := false } c.bd

/-- `Content::set_location`. -/
def Content.setLocation (c : Content) (l : Nat) : Content :=
  .mk { c.hd with loc := some l } c.bd

/-- `Content::spanned`. -/
def Content.spanned (c : Content) (sp : Option Nat) : Content :=
  .mk { c.hd with span := sp } c.bd

/-- Run the external `Synthesize` implementation.  Modelled from the spec:
synthesis populates computed fields; the model records it in the
`synthesized` flag of the element data. -/
def Content.synthesizeF (c : Content) : Content :=
  match c with
  | .mk h (.elem (.mk k cp t w p tg bf _ bh bd so ss)) =>
      .mk h (.elem (.mk k cp t w p tg bf true bh bd so ss))
  | other => other

/-- The built-in show output (`with::<dyn Show>` then `show`), available
when the node has the `Show` capability. -/
def Content.showOutF (c : Content) : Content :=
  match c.elemData? with
  | some e => e.showOut
  | none => c

/-- The built-in show-set styles (`with::<dyn ShowSet>` then `show_set`). -/
def Content.showSetF (c : Content) : Styles :=
  match c.elemData? with
  | some e => e.showSetOut
  | none => Styles.empty

/-- `Content::to_styled`. -/
def Content.toStyled? (c : Content) : Option (Content × Styles) :=
  match c.bd with
  | .styled e m => some (e, m)
  | _ => none

/-- `Content::to_sequence`. -/
def Content.toSequence? (c : Content) : Option (List Content) :=
  match c.bd with
  | .seqn cs => some cs
  | _ => none

/-- `to_packed::<TextElem>` then `text()`: the string of a text element. -/
def Content.toText? (c : Content) : Option (List Char) :=
  match c.elemData? with
  | some e => if e.kind = .text then some e.txt else none
  | none => none

/-- `Content::styled_with_map`: wrap in a styled node unless the map is
empty. -/
def Content.styledWithMap (c : Content) (m : Styles) : Content :=
  if m.isEmptyS then c else .mk Header.fresh (.styled c m)

/-- `Content::sequence`: the empty content for no children, the child
itself for exactly one, and a fresh sequence node otherwise. -/
def Content.sequence (cs : List Content) : Content :=
  match cs with
  | [] => .mk Header.fresh (.seqn [])
  | [c] => c
  | _ => .mk Header.fresh (.seqn cs)

/-- Content addition (`+=` in the source): merge into a sequence, keeping
the left header when the left node already is a sequence and creating a
fresh sequence node otherwise. -/
def Content.add (a b : Content) : Content :=
  match a, b with
  | .mk ha (.seqn xs), .mk _ (.seqn ys) => .mk ha (.seqn (xs ++ ys))
  | .mk ha (.seqn xs), other => .mk ha (.seqn (xs ++ [other]))
  | other, .mk _ (.seqn ys) => .mk Header.fresh (.seqn (other :: ys))
  | x, y => .mk Header.fresh (.seqn [x, y])

/-! ## The regex engine, modelled as literal-pattern search

Modelled from the spec: the regex crate is an external collaborator.  The
model restricts patterns to literal strings; `findAll` returns the
non-overlapping, leftmost matches as `(start, stop)` index pairs, exactly
the shape `regex.find_iter` yields, and `is_match` is match-existence.  An
empty pattern is taken to match nothing (a degenerate case the language
front-end never produces). -/

/-- Whether `pat` occurs at the head of `s`. -/
def leadsWith : List Char → List Char → Bool
  | [], _ => true
  | _ :: _, [] => false
  | a :: as_, b :: bs => a = b && leadsWith as_ bs

/-- Scan `s` (whose first position is `pos`) for non-overlapping leftmost
occurrences of the nonempty pattern `pat`. -/
def scanAll (pat : List Char) : List Char → Nat → List (Nat × Nat)
  | [], _ => []
  | c :: rest, pos =>
      if leadsWith pat (c :: rest) then
        (pos, pos + pat.length) ::
          scanAll pat (List.drop (pat.length - 1) rest) (pos + pat.length)
      else
        scanAll pat rest (pos + 1)
termination_by s _ => s.length
decreasing_by
  · simp only [List.length_cons, List.length_drop]; omega
  · simp only [List.length_cons]; omega

/-- All matches of the literal pattern in the string (`find_iter`). -/
def findAll (pat s : List Char) : List (Nat × Nat) :=
  if pat.isEmpty then [] else scanAll pat s 0

/-- Match existence (`Regex::is_match`), consistent with `findAll`. -/
def isMatch (pat s : List Char) : Bool :=
  !(findAll pat s).isEmpty

/-- The slice `s[a..b]`. -/
def slice (s : List Char) (a b : Nat) : List Char :=
  (s.drop a).take (b - a)

/-! ## Selectors, recipes, `try_apply`, `applicable`, `realize` -/

/-- The selector of a recipe. -/
def Recipe.sel : Recipe → Option Selector
  | .mk s _ _ => s

/-- The transform of a recipe. -/
def Recipe.trans : Recipe → Transformation
  | .mk _ t _ => t

/-- The span of a recipe. -/
def Recipe.rspan : Recipe → Option Nat
  | .mk _ _ sp => sp

/-- Whether the transform is a show-set (style) transform. -/
def Transformation.isStyleT : Transformation → Bool
  | .style _ => true
  | _ => false

/-- `Selector::matches` for the selectors supported at the realize call
site.  Composite selectors are handled by the introspection engine
(outside `src/`); per the spec they are not valid here and are modelled as
non-matching. -/
def Selector.matches : Selector → Content → Bool
  | .elemSel k, c => c.func? = some k
  | .labelSel l, c => c.lbl = some l
  | .regexSel pat, c =>
      match c.toText? with
      | some txt => isMatch pat txt
      | none => false
  | .otherSel, _ => false

/-- `Recipe::applicable`: the selector, when present, matches the target. -/
def Recipe.applicableR (r : Recipe) (t : Content) : Bool :=
  match r.sel with
  | some s => s.matches t
  | none => false

/-- `Recipe::apply`: run the transform on the content.  The user functions
of the source are external; the model's first-order transforms are total,
so no error case arises. -/
def Recipe.applyR (r : Recipe) (c : Content) : Content :=
  match r.trans with
  | .style s => c.styledWithMap s
  | .showConst out => out
  | .showId => c
  | .showWrap k => .mk Header.fresh (.elem
      (.mk k Caps.none [] false none false false false .strong [c]
        (.mk Header.fresh (.seqn [])) Styles.empty))

/-- A fresh copy of a text element with replaced text (`make` in the regex
branch of `try_apply`: `elem.clone()` keeps the header, `push_text`
replaces the string). -/
def mkFreshText (t : Content) (s : List Char) : Content :=
  match t with
  | .mk h (.elem (.mk k cp _ w p tg bf sy bh bd so ss)) =>
      .mk h (.elem (.mk k cp s w p tg bf sy bh bd so ss))
  | other => other

/-- One step of the regex interleaving loop of `try_apply`: emit the
unmatched slice before the match (if any), then the transform applied to a
fresh guarded copy of the matched slice; the cursor moves to the match
end. -/
def regexStep (target : Content) (r : Recipe) (guard : Nat) (txt : List Char)
    (acc : List Content × Nat) (m : Nat × Nat) : List Content × Nat :=
  let res := acc.1
  let cursor := acc.2
  let res := if cursor < m.1 then res ++ [mkFreshText target (slice txt cursor m.1)] else res
  let piece := (mkFreshText target (slice txt m.1 m.2)).guarded guard
  (res ++ [r.applyR piece], m.2)

/-- `try_apply`: apply one recipe to a target, dispatching on the
selector.  The engine argument of the source is only consumed by the
external user transform, which the model treats as pure. -/
def tryApply (target : Content) (r : Recipe) (guard : Nat) : Option Content :=
  match r.sel with
  | some (.elemSel k) =>
      if target.func? ≠ some k then none
      else some (r.applyR (target.guarded guard))
  | some (.labelSel l) =>
      if target.lbl ≠ some l then none
      else some (r.applyR (target.guarded guard))
  | some (.regexSel pat) =>
      match target.toText? with
      | none => none
      | some txt =>
          let acc := (findAll pat txt).foldl (regexStep target r guard txt) ([], 0)
          if acc.1.isEmpty then none
          else
            let result :=
              if acc.2 < txt.length then acc.1 ++ [mkFreshText target (slice txt acc.2 txt.length)]
              else acc.1
            some (Content.sequence result)
  | some .otherSel => none
  | none => none

/-- The loop of `applicable`: recipes innermost-first, depth indices
counting down from the total recipe count. -/
def applicableLoop (t : Content) : List Recipe → Nat → Bool
  | [], _ => false
  | r :: rest, n =>
      if !t.isGuarded n && r.applicableR t &&
          (!r.trans.isStyleT || !t.isPrepared) then
        true
      else
        applicableLoop t rest (n - 1)

/-- `applicable`: whether the target is affected by show rules in the
chain. -/
def applicable (t : Content) (s : StyleChain) : Bool :=
  if t.needsPrep || t.canC Caps.canShow then
    true
  else
    applicableLoop t s.recipes s.recipes.length

/-- The show-set accumulation of `realize`: for an unprepared target,
merge the style maps of all matching show-set recipes, then the built-in
show-set styles. -/
def showSetMap (t : Content) (s : StyleChain) : Styles :=
  if t.isPrepared then Styles.empty
  else
    let m := s.recipes.foldl
      (fun m r =>
        match r.trans with
        | .style st => if r.applicableR t then m.applyS st else m
        | _ => m)
      Styles.empty
    if t.canC Caps.canShowSet then m.applyS t.showSetF else m

/-- The engine: the show-rule depth counter of `route` and the counter of
the introspection locator (modelled from the spec: `locate` assigns fresh
identifiers). -/
structure Engine where
  route : Nat
  locator : Nat
deriving DecidableEq, Repr

/-- `engine.locator.locate(hash)`: a fresh location. -/
def Engine.locate (e : Engine) : Nat × Engine :=
  (e.locator, { e with locator := e.locator + 1 })

/-- `Route::MAX_SHOW_RULE_DEPTH`. -/
def MAX_SHOW_RULE_DEPTH : Nat := 64

/-- A sentinel `MetaElem` content (`MetaElem::new().pack()`). -/
def metaElemC (sp : Option Nat) : Content :=
  .mk { Header.fresh with span := sp } (.elem
    (.mk .meta Caps.none [] false none false false false .invisible []
      (.mk Header.fresh (.seqn [])) Styles.empty))

/-- The show-recipe loop of `realize`: the first matching, unguarded,
non-style recipe whose `try_apply` yields content wins. -/
def recipeLoop (t : Content) : List Recipe → Nat → Option Content
  | [], _ => none
  | r :: rest, n =>
      if !r.trans.isStyleT && !t.isGuarded n && r.applicableR t then
        match tryApply t r n with
        | some c => some c
        | none => recipeLoop t rest (n - 1)
      else
        recipeLoop t rest (n - 1)

/-- `realize`: the single-step rewriter.  Show-set accumulation, then the
preparation branch, then the show-recipe loop, then the built-in show. -/
def realize (eng : Engine) (target : Content) (styles : StyleChain) :
    Engine × Option Content :=
  let map := showSetMap target styles
  if target.needsPrep || !map.isEmptyS then
    let elem := target
    let le :=
      if elem.canC Caps.canLocatable || elem.lbl.isSome then
        ((eng.locate).2, elem.setLocation (eng.locate).1)
      else (eng, elem)
    let eng' := le.1
    let elem := le.2
    let elem := if elem.canC Caps.canSynthesize then elem.synthesizeF else elem
    let elem := elem.markPrepared
    let me :=
      if elem.loc.isSome then
        (map.setS (.metaProp elem), elem.add (metaElemC elem.span))
      else (map, elem)
    (eng', some (me.2.styledWithMap me.1))
  else
    match recipeLoop target styles.recipes styles.recipes.length with
    | some c => (eng, some c)
    | none =>
        if target.canC Caps.canShow then (eng, some target.showOutF)
        else (eng, none)

/-! ## Builders -/

/-- The empty content (`Content::empty`, an empty sequence). -/
def emptyContent : Content := .mk Header.fresh (.seqn [])

/-- Behaviour of a content node as the builders consult it.  Modelled from
the spec: elements without a `Behave` implementation count as strong for
the purposes of `has_strong_elements` and are never invisible. -/
def Content.behaviourOf (c : Content) : Behaviour :=
  match c.elemData? with
  | some e => e.behaviour
  | none => .strong

/-- `BehavedBuilder`.  Modelled from the spec: `behave.rs` is an external
collaborator of the core (`mod behave` is not part of the provided
source).  The model keeps pushed items in arrival order. -/
structure BehavedBuilder where
  items : List (Content × StyleChain)

/-- The empty `BehavedBuilder`. -/
def BehavedBuilder.empty : BehavedBuilder := ⟨[]⟩

/-- Push an item. -/
def BehavedBuilder.push (b : BehavedBuilder) (c : Content) (s : StyleChain) :
    BehavedBuilder :=
  ⟨b.items ++ [(c, s)]⟩

/-- `has_strong_elements`: some pushed item is strong or supportive.
Modelled from the spec; the `last` flag influences trailing-weak handling
in the external collaborator and is not determined further by the spec. -/
def BehavedBuilder.hasStrong (b : BehavedBuilder) (_last : Bool) : Bool :=
  b.items.any fun p =>
    match p.1.behaviourOf with
    | .strong => true
    | .supportive => true
    | _ => false

/-- Longest common suffix of two link lists, used for the shared trunk of
`StyleVecBuilder::finish`. -/
def commonSuffix2 (a b : List Styles) : List Styles :=
  (((a.reverse.zip b.reverse).takeWhile fun p => p.1 == p.2).map Prod.fst).reverse

/-- The deepest common ancestor of the style chains of all items.
Modelled from the spec: `StyleVecBuilder` lives in the foundations crate;
its `finish` computes the shared trunk of all item chains. -/
def sharedTrunk : List StyleChain → List Styles
  | [] => []
  | c :: cs => cs.foldl (fun acc c2 => commonSuffix2 acc c2.links) c.links

/-- `StyleVecBuilder::finish`: items with their local (non-shared) styles,
plus the shared chain.  Modelled from the spec. -/
def svbFinish (items : List (Content × StyleChain)) :
    List (Content × Styles) × StyleChain :=
  let shared := sharedTrunk (items.map Prod.snd)
  (items.map fun p =>
      (p.1, Styles.mk
        ((p.2.links.take (p.2.links.length - shared.length)).flatMap Styles.entries)),
    ⟨shared⟩)

/-- `StyleVec::to_vec`: each item styled with its local styles. -/
def svToVec (items : List (Content × Styles)) : List Content :=
  items.map fun p => p.1.styledWithMap p.2

/-- `first_span`: the first non-detached span among visible children. -/
def firstSpan (children : List (Content × Styles)) : Option Nat :=
  (children.filterMap fun p =>
    if p.1.behaviourOf = .invisible then none else p.1.span).head?

/-- Build a product element content with the given kind, capabilities,
behaviour, children and span. -/
def mkElemC (k : ElemKind) (cp : Caps) (bh : Behaviour) (body : List Content)
    (sp : Option Nat) : Content :=
  .mk { Header.fresh with span := sp }
    (.elem (.mk k cp [] false none false false false bh body emptyContent Styles.empty))

/-- Capabilities of multi-layoutable products (list/enum/terms/flow). -/
def capsLayM : Caps := { Caps.none with canLayoutMultiple := true }

/-- Capabilities of the citation-group product.  The external registry is
out of scope; the model makes the product layoutable so that the flow
accepts it. -/
def capsLayS : Caps := { Caps.none with canLayoutSingle := true }

/-- Replace the child contents of an element. -/
def Content.setBody (c : Content) (bs : List Content) : Content :=
  match c with
  | .mk h (.elem (.mk k cp t w p tg bf sy bh _ so ss)) =>
      .mk h (.elem (.mk k cp t w p tg bf sy bh bs so ss))
  | other => other

/-- The child contents of an element. -/
def Content.bodyList (c : Content) : List Content :=
  match c.elemData? with
  | some e => e.body
  | none => []

/-- Set the tightness field (`with_tight`). -/
def Content.withTight (c : Content) (t : Bool) : Content :=
  match c with
  | .mk h (.elem (.mk k cp tx w p _ bf sy bh bd so ss)) =>
      .mk h (.elem (.mk k cp tx w p t bf sy bh bd so ss))
  | other => other

/-- Set the `clear_to` parity of a page (`push_clear_to`). -/
def Content.withParity (c : Content) (p : Option Parity) : Content :=
  match c with
  | .mk h (.elem (.mk k cp tx w _ tg bf sy bh bd so ss)) =>
      .mk h (.elem (.mk k cp tx w p tg bf sy bh bd so ss))
  | other => other

/-- `CiteGroupBuilder`: styles at the first citation, the collected
citations, and staged trailing content. -/
structure CiteGroupBuilder where
  styles : StyleChain
  items : List Content
  staged : List (Content × StyleChain)

/-- The empty `CiteGroupBuilder`. -/
def CiteGroupBuilder.empty : CiteGroupBuilder := ⟨⟨[]⟩, [], []⟩

/-- `CiteGroupBuilder::accept`. -/
def CiteGroupBuilder.acceptC (b : CiteGroupBuilder) (c : Content)
    (s : StyleChain) : Option CiteGroupBuilder :=
  if !b.items.isEmpty && (c.isK .space || c.isK .meta) then
    some { b with staged := b.staged ++ [(c, s)] }
  else if c.isK .cite then
    some ⟨if b.items.isEmpty then s else b.styles,
      b.items ++ [c],
      b.staged.filter fun p => !p.1.isK .space⟩
  else
    none

/-- `CiteGroupBuilder::finish`: a `CiteGroup` element spanning the first
citation. -/
def CiteGroupBuilder.finishC (b : CiteGroupBuilder) : Content × StyleChain :=
  let sp := match b.items.head? with
    | some c => c.span
    | none => none
  (mkElemC .citeGroup capsLayS .strong b.items sp, b.styles)

/-- `ListBuilder`: collected items, tightness, staged trailing content. -/
structure ListBuilder where
  items : List (Content × StyleChain)
  tight : Bool
  staged : List (Content × StyleChain)

/-- The default `ListBuilder` (tight). -/
def ListBuilder.empty : ListBuilder := ⟨[], true, []⟩

/-- Whether a content is a list/enum/term item. -/
def isItemKind (c : Content) : Bool :=
  c.isK .listItem || c.isK .enumItem || c.isK .termItem

/-- `ListBuilder::accept`. -/
def ListBuilder.acceptL (b : ListBuilder) (c : Content) (s : StyleChain) :
    Option ListBuilder :=
  if !b.items.isEmpty && (c.isK .space || c.isK .parbreak) then
    some { b with staged := b.staged ++ [(c, s)] }
  else if isItemKind c &&
      (match b.items.head? with
       | none => true
       | some p => p.1.func? = c.func?) then
    some ⟨b.items ++ [(c, s)],
      b.tight && (b.staged.all fun p => !p.1.isK .parbreak),
      []⟩
  else
    none

/-- `ListBuilder::finish`: build the homogeneous `List`/`Enum`/`Terms`
product, pushing each item's local styles into its body (for term items:
term and description). -/
def ListBuilder.finishL (b : ListBuilder) : Content × StyleChain :=
  let fin := svbFinish b.items
  let sp := firstSpan fin.1
  match fin.1.head? with
  | none => (emptyContent, fin.2)
  | some item =>
      if item.1.isK .listItem then
        ((mkElemC .list capsLayM .strong
          (fin.1.map fun p =>
            p.1.setBody [(p.1.bodyList.headD emptyContent).styledWithMap p.2]) sp).withTight
          b.tight, fin.2)
      else if item.1.isK .enumItem then
        ((mkElemC .enum capsLayM .strong
          (fin.1.map fun p =>
            p.1.setBody [(p.1.bodyList.headD emptyContent).styledWithMap p.2]) sp).withTight
          b.tight, fin.2)
      else if item.1.isK .termItem then
        ((mkElemC .terms capsLayM .strong
          (fin.1.map fun p =>
            p.1.setBody
              [((p.1.bodyList.headD emptyContent).styledWithMap p.2),
                (((p.1.bodyList.drop 1).headD emptyContent).styledWithMap p.2)]) sp).withTight
          b.tight, fin.2)
      else
        (emptyContent, fin.2)

/-- `ParBuilder`. -/
structure ParBuilder where
  bb : BehavedBuilder

/-- The empty `ParBuilder`. -/
def ParBuilder.empty : ParBuilder := ⟨BehavedBuilder.empty⟩

/-- `ParBuilder::accept`: inline-class content; `Meta` only once the
paragraph holds a strong element. -/
def ParBuilder.acceptP (b : ParBuilder) (c : Content) (s : StyleChain) :
    Option ParBuilder :=
  if c.isK .meta then
    if b.bb.hasStrong false then some ⟨b.bb.push c s⟩ else none
  else if c.isK .space || c.isK .text || c.isK .h || c.isK .linebreak ||
      c.isK .smartQuote ||
      (match c.elemData? with
       | some e => (e.kind == .equation) && !e.blockFlag
       | none => false) ||
      c.isK .boxK then
    some ⟨b.bb.push c s⟩
  else
    none

/-- `ParBuilder::finish`: a `Paragraph` element. -/
def ParBuilder.finishP (b : ParBuilder) : Content × StyleChain :=
  let fin := svbFinish b.bb.items
  (mkElemC .par Caps.none .strong (svToVec fin.1) (firstSpan fin.1), fin.2)

/-- `FlowBuilder`: a `BehavedBuilder` plus the last-was-parbreak flag. -/
structure FlowBuilder where
  bb : BehavedBuilder
  lastWasParbreak : Bool

/-- The empty `FlowBuilder`. -/
def FlowBuilder.empty : FlowBuilder := ⟨BehavedBuilder.empty, false⟩

/-- The list-attach spacing pushed before a tight list (derived from the
paragraph leading in the source; the style lookup is external and the
value is modelled as a fixed weak spacing element). -/
def vAttach : Content :=
  .mk Header.fresh
    (.elem (.mk .v Caps.none [Char.ofNat 108] false none false false false (.weakB 0) []
      emptyContent Styles.empty))

/-- The above-spacing of a block (external style lookup, fixed model). -/
def vAbove : Content :=
  .mk Header.fresh
    (.elem (.mk .v Caps.none [Char.ofNat 97] false none false false false (.weakB 0) []
      emptyContent Styles.empty))

/-- The below-spacing of a block (external style lookup, fixed model). -/
def vBelow : Content :=
  .mk Header.fresh
    (.elem (.mk .v Caps.none [Char.ofNat 98] false none false false false (.weakB 0) []
      emptyContent Styles.empty))

/-- `FlowBuilder::accept`. -/
def FlowBuilder.acceptF (b : FlowBuilder) (c : Content) (s : StyleChain) :
    Option FlowBuilder :=
  if c.isK .parbreak then
    some { b with lastWasParbreak := true }
  else
    let lastWas := b.lastWasParbreak
    let b := { b with lastWasParbreak := false }
    if c.isK .v || c.isK .colbreak || c.isK .meta || c.isK .place then
      some { b with bb := b.bb.push c s }
    else if c.canC Caps.canLayoutSingle || c.canC Caps.canLayoutMultiple ||
        c.isK .par then
      let isTightList :=
        match c.elemData? with
        | some e => (e.kind == .list || e.kind == .enum || e.kind == .terms) && e.tight
        | none => false
      let bb := if !lastWas && isTightList then b.bb.push vAttach s else b.bb
      let bb := bb.push vAbove s
      let bb := bb.push c s
      let bb := bb.push vBelow s
      some { b with bb := bb }
    else
      none

/-- `DocBuilder`: page runs, `keep_next`, `clear_next`. -/
structure DocBuilder where
  pages : List (Content × StyleChain)
  keepNext : Bool
  clearNext : Option Parity

/-- `DocBuilder::default`: `keep_next` starts true. -/
def DocBuilder.dflt : DocBuilder := ⟨[], true, none⟩

/-- `DocBuilder::accept`: pagebreaks overwrite the pending state; pages
consume `clear_next` and reset `keep_next`. -/
def DocBuilder.acceptD (b : DocBuilder) (c : Content) (s : StyleChain) :
    Option DocBuilder :=
  match c.elemData? with
  | some e =>
      if e.kind = .pagebreak then
        some { b with keepNext := !e.weak, clearNext := e.parity }
      else if e.kind = .page then
        let elem :=
          match b.clearNext with
          | some p => c.withParity (some p)
          | none => c
        some ⟨b.pages ++ [(elem, s)], false, none⟩
      else
        none
  | none => none

/-- The builder with its four nested sub-builders and the optional
document builder. -/
structure Builder where
  doc : Option DocBuilder
  flow : FlowBuilder
  par : ParBuilder
  list : ListBuilder
  cites : CiteGroupBuilder

/-- `Builder::new`. -/
def Builder.new (top : Bool) : Builder :=
  ⟨if top then some DocBuilder.dflt else none,
    FlowBuilder.empty, ParBuilder.empty, ListBuilder.empty, CiteGroupBuilder.empty⟩

/-- The walk state: engine, builder, and a monitor flag.  The flag is an
observer recording whether content was ever fed into an outer sub-builder
while a strictly inner sub-builder was nonempty; it never influences
control flow. -/
structure St where
  engine : Engine
  builder : Builder
  viol : Bool

/-- Model artifact: the fuel of the embedding ran out (the source walk has
no such case; all theorems are stated relative to non-fuel outcomes). -/
def fuelDiag : Diag := ⟨none, "out of fuel", []⟩

/-- The show-rule recursion diagnostic of `Builder::accept`. -/
def depthDiag (sp : Option Nat) : Diag :=
  ⟨sp, "maximum show rule depth exceeded",
    ["check whether the show rule matches its own output",
      "this is a current compiler limitation that will be resolved in the future"]⟩

/-- The illegal-pagebreak diagnostic. -/
def pagebreakDiag (sp : Option Nat) : Diag :=
  ⟨sp, "pagebreaks are not allowed inside of containers", []⟩

/-- The fallthrough diagnostic for an element no builder accepted. -/
def notAllowedDiag (sp : Option Nat) : Diag :=
  ⟨sp, "is not allowed here", []⟩

/-- The document-set-rule-in-container diagnostic. -/
def docContainersDiag (sp : Option Nat) : Diag :=
  ⟨sp, "document set rules are not allowed inside of containers", []⟩

/-- The document-set-rule-after-content diagnostic. -/
def docBeforeDiag (sp : Option Nat) : Diag :=
  ⟨sp, "document set rules must appear before any content", []⟩

/-- The page-set-rule-in-container diagnostic. -/
def pageContainersDiag (sp : Option Nat) : Diag :=
  ⟨sp, "page configuration is not allowed inside of containers", []⟩

/-- The math wrapping step of `Builder::accept`: wrap `LayoutMath` content
that is not itself an equation into a fresh inline equation element. -/
def mathWrap (c : Content) : Content :=
  if c.canC Caps.canLayoutMath && !c.isK .equation then
    .mk { Header.fresh with span := c.span }
      (.elem (.mk .equation Caps.none [] false none false false false .strong [c]
        emptyContent Styles.empty))
  else c

/-- The fallthrough of `Builder::accept`: error on a pagebreak inside a
container, otherwise on the element kind. -/
def fallthroughErr (c : Content) : Except Diag St :=
  if c.isK .pagebreak then .error (pagebreakDiag c.span)
  else .error (notAllowedDiag c.span)

mutual

/-- `Builder::accept`: math wrapping, realization attempt with the depth
counter, styled and sequence dispatch, then the sub-builders from
innermost to outermost with the interrupt cascade.  The `viol` flag
observes, at each successful feed into an outer sub-builder, whether a
strictly inner sub-builder was nonempty at that moment. -/
def accept : Nat → St → Content → StyleChain → Except Diag St
  | 0, _, _, _ => .error fuelDiag
  | Nat.succ f, st, content0, styles =>
    let content := mathWrap content0
    let res := realize st.engine content styles
    match res.2 with
    | some realized =>
        let eng2 := { res.1 with route := res.1.route + 1 }
        if !decide (eng2.route ≤ MAX_SHOW_RULE_DEPTH) then
          .error (depthDiag content.span)
        else
          match accept f { st with engine := eng2 } realized styles with
          | .ok st2 =>
              .ok { st2 with engine := { st2.engine with route := st2.engine.route - 1 } }
          | .error e => .error e
    | none =>
      let st := { st with engine := res.1 }
      match content.toStyled? with
      | some pr => styledGo f st pr.1 pr.2 styles
      | none =>
      match content.toSequence? with
      | some children => acceptSeq f st children styles
      | none =>
      match st.builder.cites.acceptC content styles with
      | some cb => .ok { st with builder := { st.builder with cites := cb } }
      | none =>
      match interruptCites f st with
      | .error e => .error e
      | .ok st =>
      match st.builder.list.acceptL content styles with
      | some lb =>
          .ok { st with
            builder := { st.builder with list := lb },
            viol := st.viol || !st.builder.cites.items.isEmpty }
      | none =>
      match interruptList f st with
      | .error e => .error e
      | .ok st =>
      match st.builder.list.acceptL content styles with
      | some lb =>
          .ok { st with
            builder := { st.builder with list := lb },
            viol := st.viol || !st.builder.cites.items.isEmpty }
      | none =>
      match st.builder.par.acceptP content styles with
      | some pb =>
          .ok { st with
            builder := { st.builder with par := pb },
            viol := st.viol || !st.builder.cites.items.isEmpty ||
              !st.builder.list.items.isEmpty }
      | none =>
      match interruptPar f st with
      | .error e => .error e
      | .ok st =>
      match st.builder.flow.acceptF content styles with
      | some fb =>
          .ok { st with
            builder := { st.builder with flow := fb },
            viol := st.viol || !st.builder.cites.items.isEmpty ||
              !st.builder.list.items.isEmpty || !st.builder.par.bb.items.isEmpty }
      | none =>
      let keep : Bool :=
        match content.elemData? with
        | some e => (e.kind == .pagebreak) && !e.weak
        | none => false
      match interruptPage f st (if keep then some styles else none) false with
      | .error e => .error e
      | .ok st =>
      match st.builder.doc with
      | some d =>
          match d.acceptD content styles with
          | some d' => .ok { st with builder := { st.builder with doc := some d' } }
          | none => fallthroughErr content
      | none => fallthroughErr content

/-- Sequence dispatch of `Builder::accept`: recurse on each child. -/
def acceptSeq : Nat → St → List Content → StyleChain → Except Diag St
  | 0, _, _, _ => .error fuelDiag
  | Nat.succ _, st, [], _ => .ok st
  | Nat.succ f, st, c :: cs, styles =>
    match accept f st c styles with
    | .ok st' => acceptSeq f st' cs styles
    | .error e => .error e

/-- `Builder::styled`: extend the chain, interrupt for the local styles on
entry, recurse, interrupt again on exit. -/
def styledGo : Nat → St → Content → Styles → StyleChain → Except Diag St
  | 0, _, _, _, _ => .error fuelDiag
  | Nat.succ f, st, elem, localMap, styles =>
    let chained := styles.chainWith localMap
    match interruptStyle f st localMap none with
    | .error e => .error e
    | .ok st =>
    match accept f st elem chained with
    | .error e => .error e
    | .ok st => interruptStyle f st localMap (some chained)

/-- `Builder::interrupt_style`: scoping rules for local set rules. -/
def interruptStyle : Nat → St → Styles → Option StyleChain → Except Diag St
  | 0, _, _, _ => .error fuelDiag
  | Nat.succ f, st, localMap, outer =>
    match localMap.interruption .document with
    | some (some sp) =>
        if st.builder.doc.isNone then .error (docContainersDiag (some sp))
        else if outer.isNone &&
            (!st.builder.flow.bb.items.isEmpty || !st.builder.par.bb.items.isEmpty ||
              !st.builder.list.items.isEmpty) then
          .error (docBeforeDiag (some sp))
        else .ok st
    | _ =>
      match localMap.interruption .page with
      | some (some sp) =>
          if st.builder.doc.isNone then .error (pageContainersDiag (some sp))
          else interruptPage f st outer false
      | _ =>
          if (localMap.interruption .par).isSome ||
              (localMap.interruption .align).isSome then
            interruptPar f st
          else if (localMap.interruption .list).isSome ||
              (localMap.interruption .enum).isSome ||
              (localMap.interruption .terms).isSome then
            interruptList f st
          else
            .ok st

/-- `Builder::interrupt_cites`: finalize a nonempty citation group,
re-accept the product, replay staged content. -/
def interruptCites : Nat → St → Except Diag St
  | 0, _ => .error fuelDiag
  | Nat.succ f, st =>
    if st.builder.cites.items.isEmpty then .ok st
    else
      let staged := st.builder.cites.staged
      let fin := CiteGroupBuilder.finishC { st.builder.cites with staged := [] }
      let st := { st with builder := { st.builder with cites := CiteGroupBuilder.empty } }
      match accept f st fin.1 fin.2 with
      | .error e => .error e
      | .ok st => replay f st staged

/-- Replay staged content in original order. -/
def replay : Nat → St → List (Content × StyleChain) → Except Diag St
  | 0, _, _ => .error fuelDiag
  | Nat.succ _, st, [] => .ok st
  | Nat.succ f, st, p :: rest =>
    match accept f st p.1 p.2 with
    | .ok st' => replay f st' rest
    | .error e => .error e

/-- `Builder::interrupt_list`: interrupt cites first, then finalize a
nonempty list, re-accept the product, replay staged content. -/
def interruptList : Nat → St → Except Diag St
  | 0, _ => .error fuelDiag
  | Nat.succ f, st =>
    match interruptCites f st with
    | .error e => .error e
    | .ok st =>
      if st.builder.list.items.isEmpty then .ok st
      else
        let staged := st.builder.list.staged
        let fin := ListBuilder.finishL { st.builder.list with staged := [] }
        let st := { st with builder := { st.builder with list := ListBuilder.empty } }
        match accept f st fin.1 fin.2 with
        | .error e => .error e
        | .ok st => replay f st staged

/-- `Builder::interrupt_par`: interrupt list first, then finalize a
nonempty paragraph and re-accept it. -/
def interruptPar : Nat → St → Except Diag St
  | 0, _ => .error fuelDiag
  | Nat.succ f, st =>
    match interruptList f st with
    | .error e => .error e
    | .ok st =>
      if st.builder.par.bb.items.isEmpty then .ok st
      else
        let fin := ParBuilder.finishP st.builder.par
        let st := { st with builder := { st.builder with par := ParBuilder.empty } }
        accept f st fin.1 fin.2

/-- `Builder::interrupt_page`: interrupt par first; close the flow into a
page when `keep_next` holds with explicit styles or the flow has strong
elements, choosing the shared chain when nondefault. -/
def interruptPage : Nat → St → Option StyleChain → Bool → Except Diag St
  | 0, _, _, _ => .error fuelDiag
  | Nat.succ f, st, stylesOpt, last =>
    match interruptPar f st with
    | .error e => .error e
    | .ok st =>
    match st.builder.doc with
    | none => .ok st
    | some d =>
        if (d.keepNext && stylesOpt.isSome) || st.builder.flow.bb.hasStrong last then
          let fin := svbFinish st.builder.flow.bb.items
          let st := { st with builder := { st.builder with flow := FlowBuilder.empty } }
          let chosen := if fin.2.links.isEmpty then stylesOpt.getD ⟨[]⟩ else fin.2
          let sp := firstSpan fin.1
          let flowC := mkElemC .flow capsLayM .strong (svToVec fin.1) sp
          let pageC := mkElemC .page Caps.none .strong [flowC] sp
          accept f st pageC chosen
        else
          .ok st

end

/-- A borrowed-or-owned result (`Cow`). -/
inductive CowC where
  | borrowed (c : Content)
  | owned (c : Content)

/-- `realize_block`: short-circuit for multi-layoutable content with no
applicable rules; otherwise build and emit a flow. -/
def realizeBlock (fuel : Nat) (eng : Engine) (content : Content)
    (styles : StyleChain) : Except Diag (CowC × StyleChain) :=
  if content.canC Caps.canLayoutMultiple && !applicable content styles then
    .ok (.borrowed content, styles)
  else
    match accept fuel ⟨eng, Builder.new false, false⟩ content styles with
    | .error e => .error e
    | .ok st =>
    match interruptPar fuel st with
    | .error e => .error e
    | .ok st =>
        let fin := svbFinish st.builder.flow.bb.items
        .ok (.owned (mkElemC .flow capsLayM .strong (svToVec fin.1) (firstSpan fin.1)),
          fin.2)

/-- `realize_root`: build, close the last page, emit a document. -/
def realizeRoot (fuel : Nat) (eng : Engine) (content : Content)
    (styles : StyleChain) : Except Diag (Content × StyleChain) :=
  match accept fuel ⟨eng, Builder.new true, false⟩ content styles with
  | .error e => .error e
  | .ok st =>
  match interruptPage fuel st (some styles) true with
  | .error e => .error e
  | .ok st =>
    match st.builder.doc with
    | none => .error fuelDiag
    | some d =>
        let fin := svbFinish d.pages
        .ok (mkElemC .document Caps.none .strong (svToVec fin.1) (firstSpan fin.1),
          fin.2)

/-! ## Concrete contents used for evaluation -/

/-- A plain text element. -/
def mkText (s : String) : Content :=
  .mk Header.fresh
    (.elem (.mk .text Caps.none s.toList false none false false false .strong []
      emptyContent Styles.empty))

/-- A space element (weak). -/
def mkSpace : Content :=
  .mk Header.fresh
    (.elem (.mk .space Caps.none [] false none false false false (.weakB 1) []
      emptyContent Styles.empty))

/-- A parbreak element (weak). -/
def mkParbreak : Content :=
  .mk Header.fresh
    (.elem (.mk .parbreak Caps.none [] false none false false false (.weakB 2) []
      emptyContent Styles.empty))

/-- A multi-layoutable block element. -/
def mkBlock : Content :=
  .mk Header.fresh
    (.elem (.mk .block capsLayM [] false none false false false .strong []
      emptyContent Styles.empty))

/-- A citation element. -/
def mkCite : Content :=
  .mk Header.fresh
    (.elem (.mk .cite Caps.none [] false none false false false .strong []
      emptyContent Styles.empty))

/-- A list item with the given body. -/
def mkListItem (b : Content) : Content :=
  .mk Header.fresh
    (.elem (.mk .listItem Caps.none [] false none false false false .strong [b]
      emptyContent Styles.empty))

/-- An enum item with the given body. -/
def mkEnumItem (b : Content) : Content :=
  .mk Header.fresh
    (.elem (.mk .enumItem Caps.none [] false none false false false .strong [b]
      emptyContent Styles.empty))

/-- A pagebreak with the given weakness and target parity. -/
def mkPagebreak (w : Bool) (p : Option Parity) : Content :=
  .mk Header.fresh
    (.elem (.mk .pagebreak Caps.none [] w p false false false .strong []
      emptyContent Styles.empty))

/-- A heading-like element with no capabilities. -/
def mkHeading : Content :=
  .mk Header.fresh
    (.elem (.mk .heading Caps.none [] false none false false false .strong []
      emptyContent Styles.empty))

/-- The monitor flag of a walk outcome (`false` on error). -/
def violOf : Except Diag St → Bool
  | .ok st => st.viol
  | .error _ => false

/-- Whether a walk outcome is a success. -/
def isOkE : Except Diag St → Bool
  | .ok _ => true
  | .error _ => false

/-! ## Theorems -/

theorem applicableLoop_iff (t : Content) :
    ∀ (rs : List Recipe) (n : Nat),
      applicableLoop t rs n = true ↔
        ∃ k, ∃ hk : k < rs.length,
          t.isGuarded (n - k) = false ∧
          (rs.get ⟨k, hk⟩).applicableR t = true ∧
          ((rs.get ⟨k, hk⟩).trans.isStyleT = true → t.isPrepared = false) := by
  intro rs
  induction rs with
  | nil =>
      intro n
      simp [applicableLoop]
  | cons r rest ih =>
      intro n
      by_cases hc :
          (!t.isGuarded n && r.applicableR t &&
            (!r.trans.isStyleT || !t.isPrepared)) = true
      · simp only [Bool.and_eq_true, Bool.or_eq_true, Bool.not_eq_true'] at hc
        constructor
        · intro _
          refine ⟨0, by simp, ?_, ?_, ?_⟩
          · simpa using hc.1.1
          · simpa using hc.1.2
          · intro hs
            rcases hc.2 with h | h
            · exact absurd hs (by simp [h])
            · exact h
        · intro _
          simp only [applicableLoop]
          rw [if_pos]
          simp only [Bool.and_eq_true, Bool.or_eq_true, Bool.not_eq_true']
          exact hc
      · have hc' :
            (!t.isGuarded n && r.applicableR t &&
              (!r.trans.isStyleT || !t.isPrepared)) = false :=
          Bool.eq_false_iff.mpr hc
        have hunf :
            applicableLoop t (r :: rest) n = applicableLoop t rest (n - 1) := by
          simp only [applicableLoop]
          rw [if_neg]
          simp [hc']
        rw [hunf, ih (n - 1)]
        constructor
        · rintro ⟨k, hk, hg, ha, hs⟩
          refine ⟨k + 1, by simpa using Nat.succ_lt_succ hk, ?_, ?_, ?_⟩
          · have he : n - (k + 1) = n - 1 - k := by omega
            rw [he]; exact hg
          · simpa using ha
          · simpa using hs
        · rintro ⟨k, hk, hg, ha, hs⟩
          match k with
          | 0 =>
              exfalso
              apply hc
              simp only [List.get] at ha hs
              simp only [Nat.sub_zero] at hg
              simp only [Bool.and_eq_true, Bool.or_eq_true, Bool.not_eq_true']
              refine ⟨⟨hg, ha⟩, ?_⟩
              by_cases hstyle : (r.trans.isStyleT) = true
              · exact Or.inr (hs hstyle)
              · exact Or.inl (Bool.eq_false_iff.mpr hstyle)
          | k + 1 =>
              refine ⟨k, Nat.lt_of_succ_lt_succ (by simpa using hk), ?_, ?_, ?_⟩
              · have he : n - 1 - k = n - (k + 1) := by omega
                rw [he]; exact hg
              · simpa using ha
              · simpa using hs

/-- C2: `applicable` returns true iff the target needs preparation, or has
the built-in `Show` capability, or some recipe at position `k` of the
innermost-first enumeration (with depth index `N - k` where `N` is the
total recipe count, so indices run `N, N-1, …, 1`) matches the target
while the target is unguarded at that index, and, when the recipe's
transform is a style map (show-set), the target is additionally not yet
prepared. -/
theorem applicable_characterization (t : Content) (s : StyleChain) :
    applicable t s = true ↔
      (t.needsPrep = true ∨ t.canC Caps.canShow = true ∨
        ∃ k, ∃ hk : k < s.recipes.length,
          t.isGuarded (s.recipes.length - k) = false ∧
          (s.recipes.get ⟨k, hk⟩).applicableR t = true ∧
          ((s.recipes.get ⟨k, hk⟩).trans.isStyleT = true →
            t.isPrepared = false)) := by
  unfold applicable
  by_cases h1 : (t.needsPrep || t.canC Caps.canShow) = true
  · rw [if_pos h1]
    simp only [Bool.or_eq_true] at h1
    simp only [true_iff]
    rcases h1 with h | h
    · exact Or.inl h
    · exact Or.inr (Or.inl h)
  · rw [if_neg h1]
    have h1' := Bool.eq_false_iff.mpr h1
    simp only [Bool.or_eq_false_iff] at h1'
    rw [applicableLoop_iff]
    constructor
    · intro h; exact Or.inr (Or.inr h)
    · rintro (h | h | h)
      · exact absurd h (by simp [h1'.1])
      · exact absurd h (by simp [h1'.2])
      · exact h

/-! ### C3: agreement of `applicable` and `realize` -/

theorem isEmpty_false_of_mem {α : Type} {x : α} {l : List α} (h : x ∈ l) :
    l.isEmpty = false := by
  cases l
  · cases h
  · rfl

theorem eq_nil_of_isEmpty {α : Type} {l : List α} (h : l.isEmpty = true) :
    l = [] := by
  cases l
  · rfl
  · cases h

theorem fold_applyS_entries (t : Content) (rs : List Recipe) :
    ∀ acc : Styles,
      (rs.foldl
        (fun m r =>
          match r.trans with
          | .style st => if r.applicableR t then m.applyS st else m
          | _ => m)
        acc).entries =
      acc.entries ++ rs.flatMap (fun r =>
        match r.trans with
        | .style st => if r.applicableR t then st.entries else []
        | _ => []) := by
  induction rs with
  | nil => intro acc; simp
  | cons r rest ih =>
      intro acc
      simp only [List.foldl_cons, List.flatMap_cons]
      rcases htr : r.trans with st | c | _ | k
      · by_cases ha : r.applicableR t = true
        · rw [ih]
          simp [htr, ha, Styles.applyS, Styles.entries, List.append_assoc]
        · rw [ih]
          simp [htr, Bool.eq_false_iff.mpr ha]
      · rw [ih]; simp [htr]
      · rw [ih]; simp [htr]
      · rw [ih]; simp [htr]

theorem showSetMap_entries (t : Content) (s : StyleChain)
    (hp : t.isPrepared = false) :
    (showSetMap t s).entries =
      (s.recipes.flatMap (fun r =>
        match r.trans with
        | .style st => if r.applicableR t then st.entries else []
        | _ => [])) ++
      (if t.canC Caps.canShowSet then (t.showSetF).entries else []) := by
  unfold showSetMap
  rw [if_neg (by simp [hp])]
  have happ : ∀ a b : Styles, (a.applyS b).entries = a.entries ++ b.entries := by
    intro a b; cases a; cases b; rfl
  have hfold := fold_applyS_entries t s.recipes Styles.empty
  have hemp : (Styles.empty).entries = [] := rfl
  by_cases hc : t.canC Caps.canShowSet = true
  · rw [if_pos hc, if_pos hc, happ, hfold, hemp, List.nil_append]
  · rw [if_neg hc, if_neg hc, hfold, hemp, List.nil_append, List.append_nil]

theorem regexStep_len (target : Content) (r : Recipe) (g : Nat)
    (txt : List Char) :
    ∀ (ms : List (Nat × Nat)) (acc : List Content × Nat),
      acc.1.length + ms.length ≤
        ((ms.foldl (regexStep target r g txt) acc)).1.length := by
  intro ms
  induction ms with
  | nil => intro acc; simp
  | cons m rest ih =>
      intro acc
      simp only [List.foldl_cons, List.length_cons]
      have h1 : acc.1.length + 1 ≤ (regexStep target r g txt acc m).1.length := by
        unfold regexStep
        by_cases hcur : acc.2 < m.1
        · simp [hcur]
        · simp [hcur]
      calc acc.1.length + (rest.length + 1)
          = (acc.1.length + 1) + rest.length := by omega
        _ ≤ (regexStep target r g txt acc m).1.length + rest.length := by omega
        _ ≤ _ := ih (regexStep target r g txt acc m)

theorem tryApply_isSome_of_applicable (t : Content) (r : Recipe) (g : Nat)
    (ha : r.applicableR t = true) :
    (tryApply t r g).isSome = true := by
  rcases r with ⟨sel, trans, sp⟩
  simp only [Recipe.applicableR, Recipe.sel] at ha
  rcases sel with _ | sel
  · simp at ha
  · rcases sel with k | l | pat | _
    · simp only [Selector.matches] at ha
      have heq := of_decide_eq_true ha
      simp only [tryApply, Recipe.sel]
      rw [if_neg (by simp [heq])]
      simp
    · simp only [Selector.matches] at ha
      have heq := of_decide_eq_true ha
      simp only [tryApply, Recipe.sel]
      rw [if_neg (by simp [heq])]
      simp
    · simp only [Selector.matches] at ha
      simp only [tryApply, Recipe.sel]
      rcases htxt : t.toText? with _ | txt
      · rw [htxt] at ha; simp at ha
      · rw [htxt] at ha
        have hne : (findAll pat txt).isEmpty = false := by
          unfold isMatch at ha
          simpa using ha
        have hlen := regexStep_len t ⟨some (.regexSel pat), trans, sp⟩
          g txt (findAll pat txt) ([], 0)
        have hms : 0 < (findAll pat txt).length := by
          cases hfa : findAll pat txt with
          | nil => rw [hfa] at hne; simp at hne
          | cons a l => simp [hfa]
        have hres :
            (((findAll pat txt).foldl
              (regexStep t ⟨some (.regexSel pat), trans, sp⟩ g txt) ([], 0))).1.isEmpty
              = false := by
          rcases hr : (((findAll pat txt).foldl
              (regexStep t ⟨some (.regexSel pat), trans, sp⟩ g txt) ([], 0))).1 with
            _ | ⟨a, l⟩
          · exfalso
            rw [hr] at hlen
            simp at hlen
            rw [hlen] at hms
            simp at hms
          · simp
        simp only [hres]
        simp
    · simp [Selector.matches] at ha

theorem recipeLoop_isSome_iff (t : Content) :
    ∀ (rs : List Recipe) (n : Nat),
      (recipeLoop t rs n).isSome = true ↔
        ∃ k, ∃ hk : k < rs.length,
          (rs.get ⟨k, hk⟩).trans.isStyleT = false ∧
          t.isGuarded (n - k) = false ∧
          (rs.get ⟨k, hk⟩).applicableR t = true := by
  intro rs
  induction rs with
  | nil => intro n; simp [recipeLoop]
  | cons r rest ih =>
      intro n
      by_cases hc :
          (!r.trans.isStyleT && !t.isGuarded n && r.applicableR t) = true
      · simp only [Bool.and_eq_true, Bool.not_eq_true'] at hc
        constructor
        · intro _
          exact ⟨0, by simp, by simpa using hc.1.1, by simpa using hc.1.2,
            by simpa using hc.2⟩
        · intro _
          have hsome := tryApply_isSome_of_applicable t r n hc.2
          rcases hta : tryApply t r n with _ | c
          · rw [hta] at hsome; simp at hsome
          · simp only [recipeLoop]
            rw [if_pos (by simp [hc.1.1, hc.1.2, hc.2]), hta]
            simp
      · have hc' := Bool.eq_false_iff.mpr hc
        have hunf : recipeLoop t (r :: rest) n = recipeLoop t rest (n - 1) := by
          simp only [recipeLoop]
          rw [if_neg (by simp [hc'])]
        rw [hunf, ih (n - 1)]
        constructor
        · rintro ⟨k, hk, h1, h2, h3⟩
          refine ⟨k + 1, by simpa using Nat.succ_lt_succ hk, by simpa using h1, ?_,
            by simpa using h3⟩
          have he : n - (k + 1) = n - 1 - k := by omega
          rw [he]; exact h2
        · rintro ⟨k, hk, h1, h2, h3⟩
          match k with
          | 0 =>
              exfalso
              apply hc
              simp only [List.get] at h1 h3
              simp only [Nat.sub_zero] at h2
              simp [h1, h2, h3]
          | k + 1 =>
              refine ⟨k, Nat.lt_of_succ_lt_succ (by simpa using hk),
                by simpa using h1, ?_, by simpa using h3⟩
              have he : n - 1 - k = n - (k + 1) := by omega
              rw [he]; exact h2

theorem realize_isSome_iff (eng : Engine) (t : Content) (s : StyleChain) :
    ((realize eng t s).2).isSome = true ↔
      (t.needsPrep = true ∨ (showSetMap t s).isEmptyS = false ∨
        (recipeLoop t s.recipes s.recipes.length).isSome = true ∨
        t.canC Caps.canShow = true) := by
  unfold realize
  by_cases hc : (t.needsPrep || !(showSetMap t s).isEmptyS) = true
  · simp only [hc, if_pos]
    simp only [Option.isSome_some, true_iff]
    simp only [Bool.or_eq_true, Bool.not_eq_true'] at hc
    rcases hc with h | h
    · exact Or.inl h
    · exact Or.inr (Or.inl h)
  · have hc' := Bool.eq_false_iff.mpr hc
    simp only [Bool.or_eq_false_iff, Bool.not_eq_false'] at hc'
    rw [if_neg (by simp [hc])]
    rcases hl : recipeLoop t s.recipes s.recipes.length with _ | c
    · by_cases hshow : t.canC Caps.canShow = true
      · simp [hshow, hc'.1, hc'.2, hl]
      · simp [Bool.eq_false_iff.mpr hshow, hc'.1, hc'.2, hl]
    · simp [hl, hc'.1, hc'.2]

/-- The target of the C3 counterexample: an unprepared plain text element
guarded at depth 1, with no capabilities and no need of preparation. -/
def c3target : Content :=
  .mk { Header.fresh with guards := [1] }
    (.elem (.mk .text Caps.none [Char.ofNat 97] false none false false false .strong []
      emptyContent Styles.empty))

/-- The chain of the C3 counterexample: a single show-set recipe matching
text elements and carrying a nonempty style map. -/
def c3chain : StyleChain :=
  ⟨[Styles.mk [.recipeS
    (.mk (some (.elemSel .text)) (.style (Styles.mk [.property .text none])) none)]]⟩

/-- C3 counterexample: `applicable` demands that the matching show-set
recipe be unguarded at its depth index, but the show-set accumulation of
`realize` never consults guards, so on a guarded, unprepared target the
two disagree although `realize` raises no error there: `applicable` is
false while `realize` returns `Some`. -/
theorem applicable_realize_disagree :
    applicable c3target c3chain = false ∧
    ((realize ⟨0, 0⟩ c3target c3chain).2).isSome = true :=
  ⟨rfl, rfl⟩

/-- C3 corrected: for pure selectors, `applicable(t, s)` is true iff
`realize(engine, t, s)` returns `Some`, provided additionally that (i) the
target is unguarded at the depth index of every matching show-set recipe,
(ii) every show-set recipe of the chain carries a nonempty style map, and
(iii) the target has no `ShowSet` capability, or is prepared, or its
built-in show-set styles are empty. -/
theorem applicable_realize_agree (eng : Engine) (t : Content) (s : StyleChain)
    (hguard : ∀ k, ∀ hk : k < s.recipes.length,
      (s.recipes.get ⟨k, hk⟩).trans.isStyleT = true →
      (s.recipes.get ⟨k, hk⟩).applicableR t = true →
      t.isGuarded (s.recipes.length - k) = false)
    (hnonempty : ∀ k, ∀ hk : k < s.recipes.length, ∀ st,
      (s.recipes.get ⟨k, hk⟩).trans = .style st → st.isEmptyS = false)
    (hshowset : t.canC Caps.canShowSet = false ∨ t.isPrepared = true ∨
      (t.showSetF).isEmptyS = true) :
    applicable t s = true ↔ ((realize eng t s).2).isSome = true := by
  rw [applicable_characterization, realize_isSome_iff]
  constructor
  · rintro (h | h | ⟨k, hk, hg, ha, hs⟩)
    · exact Or.inl h
    · exact Or.inr (Or.inr (Or.inr h))
    · rcases hstyle : (s.recipes.get ⟨k, hk⟩).trans.isStyleT with _ | _
      · exact Or.inr (Or.inr (Or.inl
          ((recipeLoop_isSome_iff t s.recipes s.recipes.length).mpr
            ⟨k, hk, hstyle, hg, ha⟩)))
      · have hp : t.isPrepared = false := hs hstyle
        rcases htr : (s.recipes.get ⟨k, hk⟩).trans with st | c | _ | wk
        case showConst => rw [htr] at hstyle; cases hstyle
        case showId => rw [htr] at hstyle; cases hstyle
        case showWrap => rw [htr] at hstyle; cases hstyle
        case style =>
          have hst : st.isEmptyS = false := hnonempty k hk st htr
          refine Or.inr (Or.inl ?_)
          rw [Styles.isEmptyS, showSetMap_entries t s hp]
          rcases hstE : st.entries with _ | ⟨x, xs⟩
          · rw [Styles.isEmptyS, hstE] at hst; simp at hst
          · have hmem : x ∈ s.recipes.flatMap (fun r =>
                match r.trans with
                | .style st => if r.applicableR t then st.entries else []
                | _ => []) := by
              rw [List.mem_flatMap]
              refine ⟨s.recipes.get ⟨k, hk⟩, List.get_mem _ _ _, ?_⟩
              rw [htr]
              show x ∈ if (s.recipes.get ⟨k, hk⟩).applicableR t = true
                then st.entries else []
              rw [if_pos ha, hstE]
              simp
            exact isEmpty_false_of_mem (List.mem_append_left _ hmem)
  · rintro (h | h | h | h)
    · exact Or.inl h
    · have hp : t.isPrepared = false := by
        cases hpp : t.isPrepared
        · rfl
        · exfalso
          rw [Styles.isEmptyS] at h
          unfold showSetMap at h
          rw [if_pos (by simp [hpp])] at h
          simp [Styles.empty, Styles.entries] at h
      rw [Styles.isEmptyS, showSetMap_entries t s hp] at h
      have htail :
          (if t.canC Caps.canShowSet then (t.showSetF).entries else []) = [] := by
        rcases hshowset with hx | hx | hx
        · simp [hx]
        · rw [hx] at hp; cases hp
        · have := eq_nil_of_isEmpty hx
          by_cases hcs : t.canC Caps.canShowSet = true
          · simp [hcs, this]
          · simp [hcs]
      rw [htail, List.append_nil] at h
      have hne : s.recipes.flatMap (fun r =>
          match r.trans with
          | .style st => if r.applicableR t then st.entries else []
          | _ => []) ≠ [] := by
        intro hfl
        rw [hfl] at h
        simp at h
      rcases List.exists_mem_of_ne_nil _ hne with ⟨x, hmem⟩
      rw [List.mem_flatMap] at hmem
      rcases hmem with ⟨r, hrmem, hx⟩
      rcases List.get_of_mem hrmem with ⟨⟨k2, hk2⟩, hidx⟩
      rcases htr : r.trans with st | c | _ | wk
      case showConst => rw [htr] at hx; simp at hx
      case showId => rw [htr] at hx; simp at hx
      case showWrap => rw [htr] at hx; simp at hx
      case style =>
        rw [htr] at hx
        by_cases ha : r.applicableR t = true
        · refine Or.inr (Or.inr ⟨k2, hk2, ?_, ?_, ?_⟩)
          · exact hguard k2 hk2 (by rw [hidx, htr]; rfl) (by rw [hidx]; exact ha)
          · rw [hidx]; exact ha
          · intro _; exact hp
        · exfalso
          have hx' : x ∈ (if r.applicableR t = true then st.entries else []) := hx
          rw [if_neg ha] at hx'
          simp at hx' 
    · rcases (recipeLoop_isSome_iff t s.recipes s.recipes.length).mp h with
        ⟨k, hk, h1, h2, h3⟩
      refine Or.inr (Or.inr ⟨k, hk, h2, h3, ?_⟩)
      intro hs
      rw [h1] at hs; cases hs
    · exact Or.inr (Or.inl h)

/-! ### C1: the preparation branch of `realize` -/

/-- C1: when the target needs preparation or the accumulated show-set map
is nonempty, `realize` returns `Some` of a clone of the target that has
been assigned a location when it is locatable or labeled, synthesized when
it implements `Synthesize`, marked prepared, extended with a sentinel
metadata element (forming a sequence via content addition) when it has a
location — with the identifying metadata entry added to the style map —
and finally wrapped with the accumulated style map.  The right-hand side
mentions neither the show-recipe loop nor the built-in show, so this
branch is taken before either is tried. -/
theorem realize_preparation_branch (eng : Engine) (t : Content) (s : StyleChain)
    (h : t.needsPrep = true ∨ (showSetMap t s).isEmptyS = false) :
    realize eng t s =
      (let map := showSetMap t s
       let le :=
         if t.canC Caps.canLocatable || t.lbl.isSome then
           ((eng.locate).2, t.setLocation (eng.locate).1)
         else (eng, t)
       let elem := if le.2.canC Caps.canSynthesize then le.2.synthesizeF else le.2
       let elem := elem.markPrepared
       let me :=
         if elem.loc.isSome then
           (map.setS (.metaProp elem), elem.add (metaElemC elem.span))
         else (map, elem)
       (le.1, some (me.2.styledWithMap me.1))) := by
  have hc : (t.needsPrep || !(showSetMap t s).isEmptyS) = true := by
    rcases h with h | h
    · simp [h]
    · simp [h]
  unfold realize
  rw [if_pos hc]

/-- A labeled element that needs preparation, for the C1 witness. -/
def w1t : Content :=
  .mk { Header.fresh with lbl := some 7, needsPrep := true }
    (.elem (.mk .heading Caps.none [] false none false false false .strong []
      emptyContent Styles.empty))

theorem realize_preparation_branch_witness :
    w1t.needsPrep = true ∧
    realize ⟨0, 0⟩ w1t ⟨[]⟩ =
      (let map := showSetMap w1t ⟨[]⟩
       let le :=
         if w1t.canC Caps.canLocatable || w1t.lbl.isSome then
           (((⟨0, 0⟩ : Engine).locate).2, w1t.setLocation ((⟨0, 0⟩ : Engine).locate).1)
         else (⟨0, 0⟩, w1t)
       let elem := if le.2.canC Caps.canSynthesize then le.2.synthesizeF else le.2
       let elem := elem.markPrepared
       let me :=
         if elem.loc.isSome then
           (map.setS (.metaProp elem), elem.add (metaElemC elem.span))
         else (map, elem)
       (le.1, some (me.2.styledWithMap me.1))) :=
  ⟨rfl, realize_preparation_branch ⟨0, 0⟩ w1t ⟨[]⟩ (Or.inl rfl)⟩

/-- A plain text target for the C3 witness. -/
def w3t : Content := mkText "a"

/-- The C3 witness recipe: a non-style element-selector recipe on text. -/
def w3r : Recipe := .mk (some (.elemSel .text)) (.showConst (mkText "x")) none

/-- The C3 witness chain holding only `w3r`. -/
def w3s : StyleChain := ⟨[Styles.mk [.recipeS w3r]]⟩

theorem applicable_realize_agree_witness :
    applicable w3t w3s = true ↔ ((realize ⟨0, 0⟩ w3t w3s).2).isSome = true :=
  applicable_realize_agree ⟨0, 0⟩ w3t w3s
    (by
      intro k hk
      have hl : w3s.recipes.length = 1 := rfl
      match k, hk with
      | 0, hk =>
          intro hstyle _
          have hr : w3s.recipes.get ⟨0, hk⟩ = w3r := rfl
          rw [hr] at hstyle
          exact absurd hstyle (by decide)
      | Nat.succ k, hk =>
          rw [hl] at hk
          omega)
    (by
      intro k hk st hst
      have hl : w3s.recipes.length = 1 := rfl
      match k, hk with
      | 0, hk =>
          have hr : w3s.recipes.get ⟨0, hk⟩ = w3r := rfl
          rw [hr] at hst
          have : w3r.trans = Transformation.showConst (mkText "x") := rfl
          rw [this] at hst
          cases hst
      | Nat.succ k, hk =>
          rw [hl] at hk
          omega)
    (Or.inl rfl)

/-! ### C6: the regex branch of `try_apply` -/

/-- The cursor position after a match list: the end of the last match, or
the given start when there is none. -/
def lastEnd (c0 : Nat) (ms : List (Nat × Nat)) : Nat :=
  (ms.map Prod.snd).getLastD c0

/-- The interleaving the spec describes for a regex recipe: for each match
paired with the end of its predecessor (the cursor), the unmatched slice
before it when nonempty, then the transform applied to a fresh guarded
copy of the matched slice. -/
def regexInterleave (t : Content) (r : Recipe) (g : Nat) (txt : List Char)
    (c0 : Nat) (ms : List (Nat × Nat)) : List Content :=
  (ms.zip (c0 :: ms.map Prod.snd)).flatMap fun p =>
    (if p.2 < p.1.1 then [mkFreshText t (slice txt p.2 p.1.1)] else []) ++
    [r.applyR ((mkFreshText t (slice txt p.1.1 p.1.2)).guarded g)]

theorem regexStep_eq (t : Content) (r : Recipe) (g : Nat) (txt : List Char)
    (res0 : List Content) (c0 : Nat) (m : Nat × Nat) :
    regexStep t r g txt (res0, c0) m =
      (res0 ++ ((if c0 < m.1 then [mkFreshText t (slice txt c0 m.1)] else []) ++
        [r.applyR ((mkFreshText t (slice txt m.1 m.2)).guarded g)]), m.2) := by
  unfold regexStep
  by_cases hcur : c0 < m.1
  · simp [hcur]
  · simp [hcur]

theorem regex_foldl_spec (t : Content) (r : Recipe) (g : Nat) (txt : List Char) :
    ∀ (ms : List (Nat × Nat)) (res0 : List Content) (c0 : Nat),
      ms.foldl (regexStep t r g txt) (res0, c0) =
        (res0 ++ regexInterleave t r g txt c0 ms, lastEnd c0 ms) := by
  intro ms
  induction ms with
  | nil => intro res0 c0; simp [regexInterleave, lastEnd]
  | cons m rest ih =>
      intro res0 c0
      simp only [List.foldl_cons]
      rw [regexStep_eq, ih]
      have h1 : regexInterleave t r g txt c0 (m :: rest) =
          ((if c0 < m.1 then [mkFreshText t (slice txt c0 m.1)] else []) ++
            [r.applyR ((mkFreshText t (slice txt m.1 m.2)).guarded g)]) ++
          regexInterleave t r g txt m.2 rest := by
        simp [regexInterleave, List.zip]
      have h2 : lastEnd c0 (m :: rest) = lastEnd m.2 rest := by
        unfold lastEnd
        simp only [List.map_cons]
        rw [List.getLastD_cons]
      rw [h1, h2, List.append_assoc]

theorem regexInterleave_ne_nil (t : Content) (r : Recipe) (g : Nat)
    (txt : List Char) (c0 : Nat) (m : Nat × Nat) (rest : List (Nat × Nat)) :
    (regexInterleave t r g txt c0 (m :: rest)).isEmpty = false := by
  simp only [regexInterleave, List.zip]
  by_cases hcur : c0 < m.1
  · simp [hcur]
  · simp [hcur]

/-- C6: for a recipe with a regex selector, `try_apply` returns `None`
unless the target is a `Text` element with at least one match; when
matches exist it returns `Some` of the sequence that interleaves, left to
right over the non-overlapping matches, fresh text copies of the unmatched
slices with the transform applied to a fresh guarded text copy of each
matched slice (the guard being placed on the input copy before the
transform runs, as `regexInterleave` shows), followed by the trailing
unmatched slice. -/
theorem tryApply_regex (t : Content) (r : Recipe) (g : Nat) (pat : List Char)
    (h : r.sel = some (.regexSel pat)) :
    tryApply t r g =
      (match t.toText? with
       | none => none
       | some txt =>
           if (findAll pat txt).isEmpty then none
           else
             some (Content.sequence
               (regexInterleave t r g txt 0 (findAll pat txt) ++
                 (if lastEnd 0 (findAll pat txt) < txt.length then
                   [mkFreshText t (slice txt (lastEnd 0 (findAll pat txt)) txt.length)]
                 else [])))) := by
  rcases r with ⟨sel, trans, sp⟩
  simp only [Recipe.sel] at h
  subst h
  simp only [tryApply, Recipe.sel]
  rcases htxt : t.toText? with _ | txt
  · rfl
  · simp only
    rw [regex_foldl_spec]
    simp only [List.nil_append]
    rcases hms : findAll pat txt with _ | ⟨m, rest⟩
    · simp [regexInterleave]
    · simp only [regexInterleave_ne_nil, Bool.false_eq_true, if_false]
      by_cases hcur : lastEnd 0 (m :: rest) < txt.length
      · simp [hcur]
      · simp [hcur]

/-- The C6 witness recipe: regex selector on a dash. -/
def w6r : Recipe :=
  .mk (some (.regexSel [Char.ofNat 45])) (.showConst (mkText "D")) none

theorem tryApply_regex_witness :
    w6r.sel = some (.regexSel [Char.ofNat 45]) ∧
    tryApply (mkText "a-b") w6r 1 =
      (match (mkText "a-b").toText? with
       | none => none
       | some txt =>
           if (findAll [Char.ofNat 45] txt).isEmpty then none
           else
             some (Content.sequence
               (regexInterleave (mkText "a-b") w6r 1 txt 0
                   (findAll [Char.ofNat 45] txt) ++
                 (if lastEnd 0 (findAll [Char.ofNat 45] txt) < txt.length then
                   [mkFreshText (mkText "a-b")
                     (slice txt (lastEnd 0 (findAll [Char.ofNat 45] txt)) txt.length)]
                 else [])))) :=
  ⟨rfl, tryApply_regex (mkText "a-b") w6r 1 [Char.ofNat 45] rfl⟩

/-! ### C7: the `ListBuilder` -/

/-- Homogeneity of a list builder state: the first collected entry is a
list/enum/term item and every entry has its element kind. -/
def ListBuilder.homog (b : ListBuilder) : Bool :=
  match b.items.head? with
  | none => true
  | some p =>
      isItemKind p.1 && (b.items.all fun q => decide (q.1.func? = p.1.func?))

theorem itemKind_kinds (c : Content) (h : isItemKind c = true) :
    c.func? = some .listItem ∨ c.func? = some .enumItem ∨
      c.func? = some .termItem := by
  simp only [isItemKind, Content.isK, Bool.or_eq_true, decide_eq_true_eq] at h
  rcases h with (h | h) | h
  · exact Or.inl h
  · exact Or.inr (Or.inl h)
  · exact Or.inr (Or.inr h)

theorem itemKind_not_space (c : Content) (h : isItemKind c = true) :
    c.isK .space = false ∧ c.isK .parbreak = false := by
  rcases itemKind_kinds c h with hk | hk | hk <;>
    simp [Content.isK, hk]

theorem func?_setBody (c : Content) (bs : List Content) :
    (c.setBody bs).func? = c.func? := by
  rcases c with ⟨hd, bd⟩
  rcases bd with e | cs | cm
  · rcases e with ⟨k, cp, t, w, p, tg, bf, sy, bh, b, so, ss⟩
    rfl
  · rfl
  · rfl

theorem all_decide_func (p1 : Content) :
    ∀ (l : List Content), (∀ x ∈ l, x.func? = p1.func?) →
      (l.all fun x => decide (x.func? = p1.func?)) = true := by
  intro l h
  rw [List.all_eq_true]
  intro x hx
  simp [h x hx]

theorem bodyList_withTight (c : Content) (t : Bool) :
    (c.withTight t).bodyList = c.bodyList := by
  rcases c with ⟨hd, bd⟩
  rcases bd with e | cs | cm
  · rcases e with ⟨k, cp, tx, w, p, tg, bf, sy, bh, b, so, ss⟩
    rfl
  · rfl
  · rfl

theorem bodyList_mkElemC (k : ElemKind) (cp : Caps) (bh : Behaviour)
    (body : List Content) (sp : Option Nat) :
    (mkElemC k cp bh body sp).bodyList = body := rfl

theorem func?_withTight (c : Content) (t : Bool) :
    (c.withTight t).func? = c.func? := by
  rcases c with ⟨hd, bd⟩
  rcases bd with e | cs | cm
  · rcases e with ⟨k, cp, tx, w, p, tg, bf, sy, bh, b, so, ss⟩
    rfl
  · rfl
  · rfl

/-- C7: for a `ListBuilder` with nonempty items, an incoming space or
parbreak is staged rather than accepted; an item of the same kind as the
first is accepted, dropping the staged content and clearing `tight` iff
some staged token was a parbreak (once cleared it stays cleared, since the
new flag is the conjunction of the old one with the staged check); an item
of a different kind is rejected; homogeneity is preserved by every
accepted step, and a finalized product of a homogeneous builder contains
only items of the single kind of the first item. -/
theorem listBuilder_spec (b : ListBuilder) (c : Content) (s : StyleChain) :
    (b.items ≠ [] → (c.isK .space || c.isK .parbreak) = true →
      b.acceptL c s = some { b with staged := b.staged ++ [(c, s)] }) ∧
    (isItemKind c = true →
      (b.items.head?.all fun p => decide (p.1.func? = c.func?)) = true →
      b.acceptL c s =
        some ⟨b.items ++ [(c, s)],
          b.tight && (b.staged.all fun p => !p.1.isK .parbreak), []⟩ ∧
      ((b.tight && (b.staged.all fun p => !p.1.isK .parbreak)) = false ↔
        (b.tight = false ∨ (b.staged.any fun p => p.1.isK .parbreak) = true))) ∧
    (isItemKind c = true → ∀ p, b.items.head? = some p →
      p.1.func? ≠ c.func? → b.acceptL c s = none) ∧
    (b.homog = true → ∀ b', b.acceptL c s = some b' → b'.homog = true) ∧
    (b.homog = true → ∀ p, b.items.head? = some p →
      ((b.finishL).1.bodyList.all fun x => decide (x.func? = p.1.func?)) = true) := by
  refine ⟨?_, ?_, ?_, ?_, ?_⟩
  · intro hne hsp
    unfold ListBuilder.acceptL
    rw [if_pos]
    simp [hsp, hne]
  · intro hitem hsame
    have hns := itemKind_not_space c hitem
    constructor
    · unfold ListBuilder.acceptL
      rw [if_neg (by simp [hns.1, hns.2])]
      rw [if_pos]
      rcases hh : b.items.head? with _ | p
      · simp [hitem]
      · rw [hh] at hsame
        simp only [Option.all_some] at hsame
        simp [hitem, hh, of_decide_eq_true hsame]
    · constructor
      · intro hf
        rcases Bool.and_eq_false_iff.mp hf with hf | hf
        · exact Or.inl hf
        · right
          by_cases hany : (b.staged.any fun p => p.1.isK .parbreak) = true
          · exact hany
          · exfalso
            have : (b.staged.all fun p => !p.1.isK .parbreak) = true := by
              rw [List.all_eq_not_any_not]
              simp only [Bool.not_not]
              simp [Bool.eq_false_iff.mpr hany]
            rw [this] at hf
            cases hf
      · rintro (hf | hf)
        · simp [hf]
        · rw [List.all_eq_not_any_not]
          simp only [Bool.not_not]
          simp [hf]
  · intro hitem p hp hdiff
    have hns := itemKind_not_space c hitem
    unfold ListBuilder.acceptL
    rw [if_neg (by simp [hns.1, hns.2])]
    rw [if_neg]
    simp only [Bool.and_eq_true, not_and]
    intro _
    rw [hp]
    simp [hdiff]
  · intro hh b' hacc
    unfold ListBuilder.acceptL at hacc
    by_cases h1 : (!b.items.isEmpty && (c.isK .space || c.isK .parbreak)) = true
    · rw [if_pos h1] at hacc
      have hb' : b' = { b with staged := b.staged ++ [(c, s)] } :=
        (Option.some_injective _ hacc).symm
      subst hb'
      simpa [ListBuilder.homog] using hh
    · rw [if_neg h1] at hacc
      by_cases h2 : (isItemKind c &&
          match b.items.head? with
          | none => true
          | some p => p.1.func? = c.func?) = true
      · rw [if_pos h2] at hacc
        have hb' : b' = ⟨b.items ++ [(c, s)],
            b.tight && (b.staged.all fun p => !p.1.isK .parbreak), []⟩ :=
          (Option.some_injective _ hacc).symm
        subst hb'
        rw [Bool.and_eq_true] at h2
        rcases h2 with ⟨hitem, hmatch⟩
        rcases hhd : b.items.head? with _ | p
        · have hbe : b.items = [] := by
            rcases hbi2 : b.items with _ | ⟨a, l⟩
            · rfl
            · rw [hbi2] at hhd; simp at hhd
          simp [ListBuilder.homog, hbe, hitem]
        · have hbne : b.items ≠ [] := by
            intro he
            rw [he] at hhd
            simp at hhd
          rw [hhd] at hmatch
          have hfeq : p.1.func? = c.func? := of_decide_eq_true hmatch
          unfold ListBuilder.homog at hh ⊢
          rw [hhd] at hh
          simp only [List.head?_append_of_ne_nil _ hbne] at *
          rw [hhd]
          rw [Bool.and_eq_true] at hh
          rcases hh with ⟨hpitem, hall⟩
          simp only [Bool.and_eq_true, List.all_append, List.all_cons,
            List.all_nil]
          refine ⟨hpitem, ?_, ?_, trivial⟩
          · exact hall
          · simp [hfeq]
      · rw [if_neg h2] at hacc
        cases hacc
  · intro hh p hp
    unfold ListBuilder.homog at hh
    rw [hp] at hh
    rw [Bool.and_eq_true] at hh
    rcases hh with ⟨hpitem, hall⟩
    have hallf : ∀ q ∈ b.items, q.1.func? = p.1.func? := by
      intro q hq
      exact of_decide_eq_true (List.all_eq_true.mp hall q hq)
    rcases b with ⟨items, tight, staged⟩
    rcases items with _ | ⟨q0, qs⟩
    · simp at hp
    · have hq0 : q0 = p := by simpa using hp
      subst hq0
      simp only at hallf
      rcases itemKind_kinds q0.1 hpitem with hk | hk | hk
      all_goals (
        unfold ListBuilder.finishL svbFinish
        simp only [List.map_cons, List.head?_cons])
      · rw [if_pos (by unfold Content.isK; rw [hk]; decide)]
        rw [bodyList_withTight, bodyList_mkElemC]
        apply all_decide_func
        intro x hx
        rcases List.mem_cons.mp hx with heq | hmem
        · subst heq
          rw [func?_setBody]
        · simp only [List.map_map, List.mem_map] at hmem
          rcases hmem with ⟨q, hq, hxq⟩
          subst hxq
          simp only [Function.comp_apply]
          rw [func?_setBody]
          exact hallf q (List.mem_cons_of_mem _ hq)
      · rw [if_neg (by unfold Content.isK; rw [hk]; decide)]
        rw [if_pos (by unfold Content.isK; rw [hk]; decide)]
        rw [bodyList_withTight, bodyList_mkElemC]
        apply all_decide_func
        intro x hx
        rcases List.mem_cons.mp hx with heq | hmem
        · subst heq
          rw [func?_setBody]
        · simp only [List.map_map, List.mem_map] at hmem
          rcases hmem with ⟨q, hq, hxq⟩
          subst hxq
          simp only [Function.comp_apply]
          rw [func?_setBody]
          exact hallf q (List.mem_cons_of_mem _ hq)
      · rw [if_neg (by unfold Content.isK; rw [hk]; decide)]
        rw [if_neg (by unfold Content.isK; rw [hk]; decide)]
        rw [if_pos (by unfold Content.isK; rw [hk]; decide)]
        rw [bodyList_withTight, bodyList_mkElemC]
        apply all_decide_func
        intro x hx
        rcases List.mem_cons.mp hx with heq | hmem
        · subst heq
          rw [func?_setBody]
        · simp only [List.map_map, List.mem_map] at hmem
          rcases hmem with ⟨q, hq, hxq⟩
          subst hxq
          simp only [Function.comp_apply]
          rw [func?_setBody]
          exact hallf q (List.mem_cons_of_mem _ hq)

/-- A one-item list builder for the C7 witness. -/
def w7b : ListBuilder := ⟨[(mkListItem (mkText "a"), ⟨[]⟩)], true, []⟩

theorem listBuilder_spec_witness :
    w7b.acceptL mkSpace ⟨[]⟩ =
      some { w7b with staged := w7b.staged ++ [(mkSpace, ⟨[]⟩)] } ∧
    w7b.acceptL (mkListItem (mkText "b")) ⟨[]⟩ =
      some ⟨w7b.items ++ [(mkListItem (mkText "b"), ⟨[]⟩)],
        w7b.tight && (w7b.staged.all fun p => !p.1.isK .parbreak), []⟩ :=
  ⟨(listBuilder_spec w7b mkSpace ⟨[]⟩).1 (by simp [w7b]) rfl,
    ((listBuilder_spec w7b (mkListItem (mkText "b")) ⟨[]⟩).2.1 rfl rfl).1⟩

/-! ### C8: Document set rules -/

/-- C8: for a local style map with a Document set-rule interruption, the
styled-node entry calls `interrupt_style` with no outer chain; that call
errors with the containers diagnostic at the set-rule's span when the
document builder is absent, errors with the before-any-content diagnostic
when the flow, paragraph, or list builder is nonempty on entry, and raises
no error for the Document set rule otherwise; the final conjunct shows the
placement of the two `interrupt_style` calls around the recursion in
`Builder::styled`. -/
theorem interruptStyle_document (f : Nat) (st : St) (m : Styles)
    (outer : Option StyleChain) (sp : Nat)
    (h : m.interruption .document = some (some sp)) :
    (st.builder.doc = none →
      interruptStyle (f + 1) st m outer = .error (docContainersDiag (some sp))) ∧
    (∀ d, st.builder.doc = some d → outer = none →
      (!st.builder.flow.bb.items.isEmpty || !st.builder.par.bb.items.isEmpty ||
        !st.builder.list.items.isEmpty) = true →
      interruptStyle (f + 1) st m outer = .error (docBeforeDiag (some sp))) ∧
    (∀ d, st.builder.doc = some d →
      (outer = none →
        (!st.builder.flow.bb.items.isEmpty || !st.builder.par.bb.items.isEmpty ||
          !st.builder.list.items.isEmpty) = false) →
      interruptStyle (f + 1) st m outer = .ok st) ∧
    (∀ stx elem styles, styledGo (f + 1) stx elem m styles =
      (match interruptStyle f stx m none with
       | .error e => .error e
       | .ok st1 =>
         match accept f st1 elem (styles.chainWith m) with
         | .error e => .error e
         | .ok st2 => interruptStyle f st2 m (some (styles.chainWith m)))) := by
  have hred :
      interruptStyle (f + 1) st m outer =
        (if st.builder.doc.isNone then
          Except.error (docContainersDiag (some sp))
         else if (outer.isNone &&
            (!st.builder.flow.bb.items.isEmpty || !st.builder.par.bb.items.isEmpty ||
              !st.builder.list.items.isEmpty)) = true then
           Except.error (docBeforeDiag (some sp))
         else Except.ok st) := by
    simp only [interruptStyle]
    rw [h]
  refine ⟨?_, ?_, ?_, ?_⟩
  · intro hdoc
    rw [hred]
    rw [if_pos (by simp [hdoc])]
  · intro d hdoc houter hne
    rw [hred]
    rw [if_neg (by simp [hdoc])]
    rw [if_pos (by simp [houter, hne])]
  · intro d hdoc hok
    rw [hred]
    rw [if_neg (by simp [hdoc])]
    rw [if_neg]
    rcases houter : outer with _ | o
    · simp [hok houter]
    · simp
  · intro stx elem styles
    rfl

/-- The local style map of the C8 witness: one Document set rule at
span 5. -/
def w8m : Styles := Styles.mk [.property .document (some 5)]

theorem interruptStyle_document_witness :
    interruptStyle 3 ⟨⟨0, 0⟩, Builder.new false, false⟩ w8m none =
      .error (docContainersDiag (some 5)) ∧
    interruptStyle 3 ⟨⟨0, 0⟩, Builder.new true, false⟩ w8m none =
      .ok ⟨⟨0, 0⟩, Builder.new true, false⟩ :=
  ⟨(interruptStyle_document 2 ⟨⟨0, 0⟩, Builder.new false, false⟩ w8m none 5 rfl).1
      rfl,
    (interruptStyle_document 2 ⟨⟨0, 0⟩, Builder.new true, false⟩ w8m none 5 rfl).2.2.1
      DocBuilder.dflt rfl (fun _ => rfl)⟩

/-! ### C9: the short-circuit of `realize_block` -/

/-- Whether a `realize_block` outcome is a success. -/
def isOkR : Except Diag (CowC × StyleChain) → Bool
  | .ok _ => true
  | .error _ => false

/-- C9: when the input has the `LayoutMultiple` capability and
`applicable` is false, `realize_block` returns the borrowed input itself
together with the given style chain, building nothing; in every other
case a successful run returns an owned, newly packed flow element. -/
theorem realizeBlock_spec (fuel : Nat) (eng : Engine) (c : Content)
    (s : StyleChain) :
    (c.canC Caps.canLayoutMultiple = true → applicable c s = false →
      realizeBlock fuel eng c s = .ok (.borrowed c, s)) ∧
    ((c.canC Caps.canLayoutMultiple = false ∨ applicable c s = true) →
      ∀ r sh, realizeBlock fuel eng c s = .ok (r, sh) →
        (match r with
         | .owned fc => fc.isK .flow = true
         | .borrowed _ => False)) := by
  constructor
  · intro hcan happ
    unfold realizeBlock
    rw [if_pos]
    simp [hcan, happ]
  · intro hor r sh hok
    unfold realizeBlock at hok
    rw [if_neg (by rcases hor with h | h <;> simp [h])] at hok
    split at hok
    · cases hok
    · split at hok
      · cases hok
      · simp only [Except.ok.injEq, Prod.mk.injEq] at hok
        rcases hok with ⟨hr, hsh⟩
        rw [← hr]
        rfl

theorem realizeBlock_spec_witness :
    realizeBlock 5 ⟨0, 0⟩ mkBlock ⟨[]⟩ = .ok (.borrowed mkBlock, ⟨[]⟩) ∧
    (match realizeBlock 9 ⟨0, 0⟩ (mkText "hi") ⟨[]⟩ with
     | .ok (r, _) =>
         (match r with
          | .owned fc => fc.isK .flow = true
          | .borrowed _ => False)
     | .error _ => False) := by
  constructor
  · exact (realizeBlock_spec 5 ⟨0, 0⟩ mkBlock ⟨[]⟩).1 rfl rfl
  · rcases hok : realizeBlock 9 ⟨0, 0⟩ (mkText "hi") ⟨[]⟩ with e | pr
    · have hk : isOkR (realizeBlock 9 ⟨0, 0⟩ (mkText "hi") ⟨[]⟩) = true := rfl
      rw [hok] at hk
      cases hk
    · rcases pr with ⟨r, sh⟩
      exact (realizeBlock_spec 9 ⟨0, 0⟩ (mkText "hi") ⟨[]⟩).2 (Or.inl rfl) r sh hok

/-! ### C10: `DocBuilder` and consecutive pagebreaks -/

/-- The pagebreak data of a content: its weakness and target parity. -/
def pbData? (c : Content) : Option (Bool × Option Parity) :=
  match c.elemData? with
  | some e => if e.kind = .pagebreak then some (e.weak, e.parity) else none
  | none => none

/-- Feed a run of contents into a `DocBuilder`. -/
def docAcceptAll (b : DocBuilder) (cs : List Content) (s : StyleChain) :
    Option DocBuilder :=
  cs.foldl (fun ob c => ob.bind fun b => b.acceptD c s) (some b)

theorem acceptD_pagebreak (b : DocBuilder) (c : Content) (s : StyleChain)
    (d : Bool × Option Parity) (h : pbData? c = some d) :
    b.acceptD c s = some { b with keepNext := !d.1, clearNext := d.2 } := by
  unfold pbData? at h
  rcases he : c.elemData? with _ | e
  · rw [he] at h; cases h
  · rw [he] at h
    have h2 : (if e.kind = ElemKind.pagebreak then some (e.weak, e.parity)
        else none) = some d := h
    by_cases hk : e.kind = .pagebreak
    · rw [if_pos hk] at h2
      injection h2 with h2
      subst h2
      simp only [DocBuilder.acceptD, he, hk]
      simp
    · rw [if_neg hk] at h2
      cases h2

/-- C10: accepting a pagebreak overwrites `keep_next` with the negation of
its weakness and `clear_next` with its parity, combining with nothing; so
after any nonempty run of consecutive pagebreaks only the last one's
weakness and parity are pending, and the collected pages are untouched. -/
theorem docBuilder_pagebreak (s : StyleChain) :
    (∀ (b : DocBuilder) c e, c.elemData? = some e → e.kind = .pagebreak →
      b.acceptD c s = some { b with keepNext := !e.weak, clearNext := e.parity }) ∧
    (∀ (cs : List Content) (b : DocBuilder),
      (∀ c ∈ cs, (pbData? c).isSome = true) →
      ∀ c0 d, cs.getLast? = some c0 → pbData? c0 = some d →
      docAcceptAll b cs s =
        some { b with keepNext := !d.1, clearNext := d.2 }) := by
  constructor
  · intro b c e he hk
    have : pbData? c = some (e.weak, e.parity) := by
      unfold pbData?
      rw [he]
      show (if e.kind = ElemKind.pagebreak then some (e.weak, e.parity) else none) =
        some (e.weak, e.parity)
      rw [if_pos hk]
    exact acceptD_pagebreak b c s (e.weak, e.parity) this
  · intro cs
    induction cs with
    | nil =>
        intro b _ c0 d hl
        simp at hl
    | cons c rest ih =>
        intro b hall c0 d hl hd
        rcases hsome : pbData? c with _ | d1
        · have := hall c (by simp)
          rw [hsome] at this
          cases this
        · have hstep := acceptD_pagebreak b c s d1 hsome
          rcases rest with _ | ⟨c2, rest2⟩
          · simp only [List.getLast?_singleton] at hl
            injection hl with hl
            subst hl
            rw [hsome] at hd
            injection hd with hd
            subst hd
            unfold docAcceptAll
            simp [hstep]
          · have hl2 : (c2 :: rest2).getLast? = some c0 := by
              rw [← hl]
              rw [List.getLast?_cons_cons]
            have hrest : ∀ x ∈ (c2 :: rest2), (pbData? x).isSome = true := by
              intro x hx
              exact hall x (List.mem_cons_of_mem _ hx)
            have := ih { b with keepNext := !d1.1, clearNext := d1.2 }
              hrest c0 d hl2 hd
            unfold docAcceptAll at this ⊢
            simp only [List.foldl_cons] at this ⊢
            rw [show (some b).bind (fun b => b.acceptD c s) =
              some { b with keepNext := !d1.1, clearNext := d1.2 } by
                simp [hstep]]
            exact this

theorem docBuilder_pagebreak_witness :
    DocBuilder.dflt.acceptD (mkPagebreak true (some .even)) ⟨[]⟩ =
      some { DocBuilder.dflt with keepNext := !true, clearNext := some .even } ∧
    docAcceptAll DocBuilder.dflt
      [mkPagebreak false none, mkPagebreak true (some .odd)] ⟨[]⟩ =
      some { DocBuilder.dflt with keepNext := !true, clearNext := some .odd } :=
  ⟨(docBuilder_pagebreak ⟨[]⟩).1 DocBuilder.dflt (mkPagebreak true (some .even))
      (.mk .pagebreak Caps.none [] true (some .even) false false false .strong []
        emptyContent Styles.empty) rfl rfl,
    (docBuilder_pagebreak ⟨[]⟩).2
      [mkPagebreak false none, mkPagebreak true (some .odd)] DocBuilder.dflt
      (by
        intro c hc
        rcases List.mem_cons.mp hc with rfl | hc
        · rfl
        · rcases List.mem_cons.mp hc with rfl | hc
          · rfl
          · cases hc)
      (mkPagebreak true (some .odd)) (true, some .odd) rfl rfl⟩

/-! ### C5: the show-rule depth counter -/

theorem realize_route (eng : Engine) (t : Content) (s : StyleChain) :
    ((realize eng t s).1).route = eng.route := by
  unfold realize
  by_cases hc : (t.needsPrep || !(showSetMap t s).isEmptyS) = true
  · rw [if_pos hc]
    by_cases hl : (t.canC Caps.canLocatable || t.lbl.isSome) = true
    · simp [hl, Engine.locate]
    · simp [Bool.eq_false_iff.mpr hl]
  · rw [if_neg hc]
    rcases hloop : recipeLoop t s.recipes s.recipes.length with _ | c2
    · by_cases hshow : t.canC Caps.canShow = true
      · simp [hloop, hshow]
      · simp [hloop, Bool.eq_false_iff.mpr hshow]
    · simp [hloop]

theorem routePres : ∀ f : Nat,
    (∀ st c s st', accept f st c s = .ok st' →
      st'.engine.route = st.engine.route) ∧
    (∀ st cs s st', acceptSeq f st cs s = .ok st' →
      st'.engine.route = st.engine.route) ∧
    (∀ st c m s st', styledGo f st c m s = .ok st' →
      st'.engine.route = st.engine.route) ∧
    (∀ st m o st', interruptStyle f st m o = .ok st' →
      st'.engine.route = st.engine.route) ∧
    (∀ st st', interruptCites f st = .ok st' →
      st'.engine.route = st.engine.route) ∧
    (∀ st ps st', replay f st ps = .ok st' →
      st'.engine.route = st.engine.route) ∧
    (∀ st st', interruptList f st = .ok st' →
      st'.engine.route = st.engine.route) ∧
    (∀ st st', interruptPar f st = .ok st' →
      st'.engine.route = st.engine.route) ∧
    (∀ st so l st', interruptPage f st so l = .ok st' →
      st'.engine.route = st.engine.route) := by
  intro f
  induction f with
  | zero =>
      refine ⟨?_, ?_, ?_, ?_, ?_, ?_, ?_, ?_, ?_⟩
      · intro st c s st' h; simp only [accept] at h; exact Except.noConfusion h
      · intro st cs s st' h; simp only [acceptSeq] at h; exact Except.noConfusion h
      · intro st c m s st' h; simp only [styledGo] at h; exact Except.noConfusion h
      · intro st m o st' h; simp only [interruptStyle] at h
        exact Except.noConfusion h
      · intro st st' h; simp only [interruptCites] at h; exact Except.noConfusion h
      · intro st ps st' h; simp only [replay] at h; exact Except.noConfusion h
      · intro st st' h; simp only [interruptList] at h; exact Except.noConfusion h
      · intro st st' h; simp only [interruptPar] at h; exact Except.noConfusion h
      · intro st so l st' h; simp only [interruptPage] at h
        exact Except.noConfusion h
  | succ f ih =>
      obtain ⟨ihA, ihSeq, ihSty, ihIS, ihIC, ihR, ihIL, ihIP, ihPg⟩ := ih
      refine ⟨?_, ?_, ?_, ?_, ?_, ?_, ?_, ?_, ?_⟩
      · -- accept
        intro st c s st' h
        simp only [accept] at h
        split at h
        · -- realize returned some
          split at h
          · exact Except.noConfusion h
          · split at h
            · rename_i st2 heq2
              injection h with h
              subst h
              have h2 : st2.engine.route =
                  (realize st.engine (mathWrap c) s).1.route + 1 :=
                ihA _ _ _ _ heq2
              have h3 := realize_route st.engine (mathWrap c) s
              show st2.engine.route - 1 = st.engine.route
              omega
            · exact Except.noConfusion h
        · -- realize returned none
          have hroute := realize_route st.engine (mathWrap c) s
          split at h
          · -- styled node
            have h2 := ihSty _ _ _ _ _ h
            rw [h2]
            exact hroute
          · split at h
            · -- sequence
              have h2 := ihSeq _ _ _ _ h
              rw [h2]
              exact hroute
            · split at h
              · -- accepted by cites
                injection h with h
                subst h
                exact hroute
              · split at h
                · exact Except.noConfusion h
                · rename_i stc heqc
                  have hc2 : stc.engine.route = st.engine.route := by
                    have := ihIC _ _ heqc
                    rw [this]
                    exact hroute
                  split at h
                  · -- accepted by list
                    injection h with h
                    subst h
                    exact hc2
                  · split at h
                    · exact Except.noConfusion h
                    · rename_i stl heql
                      have hl2 : stl.engine.route = st.engine.route := by
                        have := ihIL _ _ heql
                        rw [this]
                        exact hc2
                      split at h
                      · -- accepted by list retry
                        injection h with h
                        subst h
                        exact hl2
                      · split at h
                        · -- accepted by par
                          injection h with h
                          subst h
                          exact hl2
                        · split at h
                          · exact Except.noConfusion h
                          · rename_i stp heqp
                            have hp2 : stp.engine.route = st.engine.route := by
                              have := ihIP _ _ heqp
                              rw [this]
                              exact hl2
                            split at h
                            · -- accepted by flow
                              injection h with h
                              subst h
                              exact hp2
                            · split at h
                              · exact Except.noConfusion h
                              · rename_i stg heqg
                                have hg2 : stg.engine.route = st.engine.route := by
                                  have := ihPg _ _ _ _ heqg
                                  rw [this]
                                  exact hp2
                                split at h
                                · -- doc present
                                  split at h
                                  · -- accepted by doc
                                    injection h with h
                                    subst h
                                    exact hg2
                                  · -- fallthrough
                                    unfold fallthroughErr at h
                                    split at h
                                    · exact Except.noConfusion h
                                    · exact Except.noConfusion h
                                · -- no doc: fallthrough
                                  unfold fallthroughErr at h
                                  split at h
                                  · exact Except.noConfusion h
                                  · exact Except.noConfusion h
      · -- acceptSeq
        intro st cs s st' h
        rcases cs with _ | ⟨c, rest⟩
        all_goals simp only [acceptSeq] at h
        · injection h with h
          subst h
          rfl
        · split at h
          · rename_i st1 heq1
            have h2 := ihSeq _ _ _ _ h
            rw [h2]
            exact ihA _ _ _ _ heq1
          · exact Except.noConfusion h
      · -- styledGo
        intro st c m s st' h
        simp only [styledGo] at h
        split at h
        · exact Except.noConfusion h
        · rename_i st1 heq1
          split at h
          · exact Except.noConfusion h
          · rename_i st2 heq2
            have h3 := ihIS _ _ _ _ h
            rw [h3]
            have h2 := ihA _ _ _ _ heq2
            rw [h2]
            exact ihIS _ _ _ _ heq1
      · -- interruptStyle
        intro st m o st' h
        simp only [interruptStyle] at h
        split at h
        · split at h
          · exact Except.noConfusion h
          · split at h
            · exact Except.noConfusion h
            · injection h with h
              subst h
              rfl
        · split at h
          · split at h
            · exact Except.noConfusion h
            · exact ihPg _ _ _ _ h
          · split at h
            · exact ihIP _ _ h
            · split at h
              · exact ihIL _ _ h
              · injection h with h
                subst h
                rfl
      · -- interruptCites
        intro st st' h
        simp only [interruptCites] at h
        split at h
        · injection h with h
          subst h
          rfl
        · split at h
          · exact Except.noConfusion h
          · rename_i st1 heq1
            have h2 := ihR _ _ _ h
            have h3 := ihA _ _ _ _ heq1
            rw [h2, h3]
      · -- replay
        intro st ps st' h
        rcases ps with _ | ⟨p, rest⟩
        all_goals simp only [replay] at h
        · injection h with h
          subst h
          rfl
        · split at h
          · rename_i st1 heq1
            have h2 := ihR _ _ _ h
            rw [h2]
            exact ihA _ _ _ _ heq1
          · exact Except.noConfusion h
      · -- interruptList
        intro st st' h
        simp only [interruptList] at h
        split at h
        · exact Except.noConfusion h
        · rename_i st1 heq1
          have hq1 : st1.engine.route = st.engine.route := ihIC _ _ heq1
          split at h
          · injection h with h
            subst h
            exact hq1
          · split at h
            · exact Except.noConfusion h
            · rename_i st2 heq2
              have h2 := ihR _ _ _ h
              rw [h2]
              have h3 := ihA _ _ _ _ heq2
              rw [h3]
              exact hq1
      · -- interruptPar
        intro st st' h
        simp only [interruptPar] at h
        split at h
        · exact Except.noConfusion h
        · rename_i st1 heq1
          have hq1 : st1.engine.route = st.engine.route := ihIL _ _ heq1
          split at h
          · injection h with h
            subst h
            exact hq1
          · have h2 := ihA _ _ _ _ h
            rw [h2]
            exact hq1
      · -- interruptPage
        intro st so l st' h
        simp only [interruptPage] at h
        split at h
        · exact Except.noConfusion h
        · rename_i st1 heq1
          have hq1 : st1.engine.route = st.engine.route := ihIP _ _ heq1
          split at h
          · injection h with h
            subst h
            exact hq1
          · split at h
            · have h2 := ihA _ _ _ _ h
              rw [h2]
              exact hq1
            · injection h with h
              subst h
              exact hq1

/-- C5: whenever `realize` rewrites the (math-wrapped) content,
`Builder::accept` increments the engine's show-rule depth counter before
recursing on the realized result with the same style chain and decrements
it afterwards (second conjunct); when the incremented counter exceeds
`MAX_SHOW_RULE_DEPTH` the walk aborts with the depth diagnostic at the
content's span, whose hint mentions the show rule matching its own output
(first conjunct); and every successful walk restores the counter (third
conjunct), so no run performs more than `MAX_SHOW_RULE_DEPTH` nested
realize steps without erroring. -/
theorem accept_depth_spec (f : Nat) (st : St) (c : Content) (s : StyleChain) :
    (∀ eng1 r, realize st.engine (mathWrap c) s = (eng1, some r) →
      MAX_SHOW_RULE_DEPTH ≤ st.engine.route →
      accept (f + 1) st c s = .error (depthDiag (mathWrap c).span)) ∧
    (∀ eng1 r, realize st.engine (mathWrap c) s = (eng1, some r) →
      st.engine.route < MAX_SHOW_RULE_DEPTH →
      accept (f + 1) st c s =
        (match accept f { st with engine := { eng1 with route := eng1.route + 1 } }
            r s with
         | .ok st2 =>
             .ok { st2 with engine :=
               { st2.engine with route := st2.engine.route - 1 } }
         | .error e => .error e)) ∧
    (∀ st', accept (f + 1) st c s = .ok st' →
      st'.engine.route = st.engine.route) := by
  refine ⟨?_, ?_, ?_⟩
  · intro eng1 r hre hmax
    have hr1 : eng1.route = st.engine.route := by
      have h0 := realize_route st.engine (mathWrap c) s
      rw [hre] at h0
      exact h0
    simp only [accept]
    rw [hre]
    show (if (!decide (eng1.route + 1 ≤ MAX_SHOW_RULE_DEPTH)) = true then
        Except.error (depthDiag (mathWrap c).span)
      else
        match accept f { st with engine := { eng1 with route := eng1.route + 1 } }
            r s with
        | .ok st2 =>
            .ok { st2 with engine :=
              { st2.engine with route := st2.engine.route - 1 } }
        | .error e => .error e) = Except.error (depthDiag (mathWrap c).span)
    rw [if_pos]
    have : ¬(eng1.route + 1 ≤ MAX_SHOW_RULE_DEPTH) := by omega
    simp [this]
  · intro eng1 r hre hlt
    have hr1 : eng1.route = st.engine.route := by
      have h0 := realize_route st.engine (mathWrap c) s
      rw [hre] at h0
      exact h0
    simp only [accept]
    rw [hre]
    show (if (!decide (eng1.route + 1 ≤ MAX_SHOW_RULE_DEPTH)) = true then
        Except.error (depthDiag (mathWrap c).span)
      else
        match accept f { st with engine := { eng1 with route := eng1.route + 1 } }
            r s with
        | .ok st2 =>
            .ok { st2 with engine :=
              { st2.engine with route := st2.engine.route - 1 } }
        | .error e => .error e) = _
    rw [if_neg]
    have : eng1.route + 1 ≤ MAX_SHOW_RULE_DEPTH := by omega
    simp [this]
  · intro st' h
    exact (routePres (f + 1)).1 st c s st' h

theorem accept_depth_spec_witness :
    accept 3 ⟨⟨64, 0⟩, Builder.new false, false⟩ w1t ⟨[]⟩ =
      .error (depthDiag (mathWrap w1t).span) ∧
    accept 3 ⟨⟨0, 0⟩, Builder.new false, false⟩ w1t ⟨[]⟩ =
      (match accept 2 { (⟨⟨0, 0⟩, Builder.new false, false⟩ : St) with
          engine := { (realize ⟨0, 0⟩ (mathWrap w1t) ⟨[]⟩).1 with
            route := (realize ⟨0, 0⟩ (mathWrap w1t) ⟨[]⟩).1.route + 1 } }
          (((realize ⟨0, 0⟩ (mathWrap w1t) ⟨[]⟩).2).getD emptyContent) ⟨[]⟩ with
       | .ok st2 =>
           .ok { st2 with engine :=
             { st2.engine with route := st2.engine.route - 1 } }
       | .error e => .error e) ∧
    (match accept 5 ⟨⟨0, 0⟩, Builder.new false, false⟩ (mkText "hi") ⟨[]⟩ with
     | .ok st' => st'.engine.route = 0
     | .error _ => False) := by
  refine ⟨?_, ?_, ?_⟩
  · exact (accept_depth_spec 2 ⟨⟨64, 0⟩, Builder.new false, false⟩ w1t ⟨[]⟩).1
      _ _ rfl (by decide)
  · exact (accept_depth_spec 2 ⟨⟨0, 0⟩, Builder.new false, false⟩ w1t ⟨[]⟩).2.1
      _ _ rfl (by decide)
  · rcases hok : accept 5 ⟨⟨0, 0⟩, Builder.new false, false⟩ (mkText "hi") ⟨[]⟩
      with e | st'
    · have hk : isOkE
          (accept 5 ⟨⟨0, 0⟩, Builder.new false, false⟩ (mkText "hi") ⟨[]⟩) =
          true := rfl
      rw [hok] at hk
      cases hk
    · show st'.engine.route = 0
      exact (accept_depth_spec 4 ⟨⟨0, 0⟩, Builder.new false, false⟩
        (mkText "hi") ⟨[]⟩).2.2 st' hok

/-! ### C4: the interrupt cascade -/

/-- A style map with no recipes. -/
def recipeFreeS (m : Styles) : Bool :=
  m.entries.all fun e => e.recipeOf.isNone

/-- A style chain with no recipes in any link. -/
def rfChain (s : StyleChain) : Bool :=
  s.links.all recipeFreeS

/-- Element data on which `realize` is inert: no built-in show and no
built-in show-set. -/
def inertE (e : ElemData) : Bool :=
  !e.caps.canShow && !e.caps.canShowSet

mutual

/-- Content on which `realize` (under a recipe-free chain) always returns
`None`: nothing needs preparation, no node has `Show` or `ShowSet`, and
styled maps carry no recipes. -/
def inertC : Content → Bool
  | .mk hd bd => !hd.needsPrep && inertB bd

/-- Body component of `inertC`. -/
def inertB : Body → Bool
  | .elem e => inertE e
  | .seqn cs => inertL cs
  | .styled c m => inertC c && recipeFreeS m

/-- List component of `inertC`. -/
def inertL : List Content → Bool
  | [] => true
  | c :: cs => inertC c && inertL cs

end

/-- Element data that cannot land in a paragraph: not an inline kind, not
an inline equation, and not subject to math wrapping. -/
def parSafeE (e : ElemData) : Bool :=
  (decide (e.kind ≠ .space)) && (decide (e.kind ≠ .text)) &&
  (decide (e.kind ≠ .h)) && (decide (e.kind ≠ .linebreak)) &&
  (decide (e.kind ≠ .smartQuote)) && (decide (e.kind ≠ .boxK)) &&
  (decide (e.kind ≠ .meta)) &&
  ((decide (e.kind ≠ .equation)) || e.blockFlag) &&
  !e.caps.canLayoutMath

/-- Graded safety of element data: level 1 excludes citations, level 2
also excludes list/enum/term items, level 3 also excludes
paragraph-acceptable content. -/
def safeE (lvl : Nat) (e : ElemData) : Bool :=
  (decide (e.kind ≠ .cite)) &&
  (if 2 ≤ lvl then
    (decide (e.kind ≠ .listItem)) && (decide (e.kind ≠ .enumItem)) &&
    (decide (e.kind ≠ .termItem))
  else true) &&
  (if 3 ≤ lvl then parSafeE e else true)

mutual

/-- Graded safety of content, recursing through sequences and styled
nodes. -/
def safeC (lvl : Nat) : Content → Bool
  | .mk _ bd => safeB lvl bd

/-- Body component of `safeC`. -/
def safeB (lvl : Nat) : Body → Bool
  | .elem e => safeE lvl e
  | .seqn cs => safeL lvl cs
  | .styled c _ => safeC lvl c

/-- List component of `safeC`. -/
def safeL (lvl : Nat) : List Content → Bool
  | [] => true
  | c :: cs => safeC lvl c && safeL lvl cs

end

theorem inert_needsPrep (t : Content) (h : inertC t = true) :
    t.needsPrep = false := by
  rcases t with ⟨hd, bd⟩
  simp only [inertC, Bool.and_eq_true, Bool.not_eq_true'] at h
  exact h.1

theorem inert_canShow (t : Content) (h : inertC t = true) :
    t.canC Caps.canShow = false := by
  rcases t with ⟨hd, bd⟩
  rcases bd with e | cs | cm
  · simp only [inertC, inertB, inertE, Bool.and_eq_true, Bool.not_eq_true'] at h
    simp only [Content.canC, Content.elemData?]
    exact h.2.1
  · simp [Content.canC, Content.elemData?]
  · simp [Content.canC, Content.elemData?]

theorem inert_canShowSet (t : Content) (h : inertC t = true) :
    t.canC Caps.canShowSet = false := by
  rcases t with ⟨hd, bd⟩
  rcases bd with e | cs | cm
  · simp only [inertC, inertB, inertE, Bool.and_eq_true, Bool.not_eq_true'] at h
    simp only [Content.canC, Content.elemData?]
    exact h.2.2
  · simp [Content.canC, Content.elemData?]
  · simp [Content.canC, Content.elemData?]

theorem rfChain_recipes (s : StyleChain) (h : rfChain s = true) :
    s.recipes = [] := by
  unfold StyleChain.recipes
  unfold rfChain at h
  rw [List.all_eq_true] at h
  rw [List.flatMap_eq_nil_iff]
  intro m hm
  have hr := h m hm
  unfold recipeFreeS at hr
  rw [List.all_eq_true] at hr
  unfold Styles.recipes
  rw [List.filterMap_eq_nil_iff]
  intro e he
  have := hr e he
  simp only [Option.isNone_iff_eq_none] at this
  exact this

theorem showSetMap_inert (t : Content) (s : StyleChain)
    (hc : inertC t = true) (hs : rfChain s = true) :
    showSetMap t s = Styles.empty := by
  unfold showSetMap
  by_cases hp : t.isPrepared = true
  · rw [if_pos hp]
  · rw [if_neg hp]
    rw [rfChain_recipes s hs]
    simp only [List.foldl_nil]
    rw [inert_canShowSet t hc]
    simp

theorem realize_none (eng : Engine) (t : Content) (s : StyleChain)
    (hc : inertC t = true) (hs : rfChain s = true) :
    realize eng t s = (eng, none) := by
  unfold realize
  rw [showSetMap_inert t s hc hs]
  rw [if_neg (by simp [inert_needsPrep t hc, Styles.empty, Styles.isEmptyS,
    Styles.entries])]
  rw [rfChain_recipes s hs]
  simp only [recipeLoop]
  rw [inert_canShow t hc]
  simp

/-- Staged entries are inert, carry recipe-free chains, are safe at
levels 1 and 2, and have one of the given element kinds. -/
def stagedOK (kinds : List ElemKind) (l : List (Content × StyleChain)) : Bool :=
  l.all fun p =>
    inertC p.1 && rfChain p.2 && safeC 1 p.1 && safeC 2 p.1 &&
    (match p.1.func? with
     | some k => kinds.contains k
     | none => false)

/-- The state invariant of the inert-world walk: the monitor flag is
clear, staged content of the citation and list builders is inert with the
kinds those builders stage, and all stored style chains are recipe-free. -/
def StInvB (st : St) : Bool :=
  !st.viol &&
  stagedOK [.space, .meta] st.builder.cites.staged &&
  rfChain st.builder.cites.styles &&
  stagedOK [.space, .parbreak] st.builder.list.staged &&
  (st.builder.list.items.all fun p => rfChain p.2) &&
  (st.builder.par.bb.items.all fun p => rfChain p.2) &&
  (st.builder.flow.bb.items.all fun p => rfChain p.2)

theorem inert_mathWrap
 (c : Content) (h : inertC c = true) :
    inertC (mathWrap c) = true := by
  unfold mathWrap
  by_cases hw : (c.canC Caps.canLayoutMath && !c.isK .equation) = true
  · rw [if_pos hw]
    rfl
  · rw [if_neg hw]
    exact h

theorem safe_mathWrap (lvl : Nat) (hl : lvl ≤ 2) (c : Content)
    (h : safeC lvl c = true) : safeC lvl (mathWrap c) = true := by
  unfold mathWrap
  by_cases hw : (c.canC Caps.canLayoutMath && !c.isK .equation) = true
  · rw [if_pos hw]
    show safeE lvl (.mk .equation Caps.none [] false none false false false
      .strong [c] emptyContent Styles.empty) = true
    unfold safeE
    have h3 : ¬3 ≤ lvl := by omega
    by_cases h2 : 2 ≤ lvl
    · rw [if_pos h2, if_neg h3]; rfl
    · rw [if_neg h2, if_neg h3]; rfl
  · rw [if_neg hw]
    exact h

theorem mathWrap_eq_of_safe3 (c : Content) (h : safeC 3 c = true) :
    mathWrap c = c := by
  unfold mathWrap
  rcases c with ⟨hd, bd⟩
  rcases bd with e | cs | cm
  · simp only [safeC, safeB, safeE] at h
    rw [if_pos (by omega), if_pos (by omega)] at h
    simp only [Bool.and_eq_true] at h
    have hpar := h.2
    unfold parSafeE at hpar
    simp only [Bool.and_eq_true, Bool.not_eq_true'] at hpar
    rw [if_neg]
    simp only [Content.canC, Content.elemData?, Bool.and_eq_true, not_and]
    intro hcan
    rw [hpar.2] at hcan
    cases hcan
  · rw [if_neg]
    simp [Content.canC, Content.elemData?]
  · rw [if_neg]
    simp [Content.canC, Content.elemData?]

theorem func?_of_elem (hd : Header) (e : ElemData) :
    (Content.mk hd (.elem e)).func? = some e.kind := rfl

theorem safeC_of_kind (lvl : Nat) (hl : lvl ≤ 2) (c : Content) (k : ElemKind)
    (hf : c.func? = some k) (h1 : k ≠ .cite) (h2 : k ≠ .listItem)
    (h3 : k ≠ .enumItem) (h4 : k ≠ .termItem) : safeC lvl c = true := by
  rcases c with ⟨hd, bd⟩
  rcases bd with e | cs | cm
  · rw [func?_of_elem] at hf
    injection hf with hf
    subst hf
    show safeE lvl e = true
    unfold safeE
    have h5 : ¬3 ≤ lvl := by omega
    by_cases hx : 2 ≤ lvl
    · rw [if_pos hx, if_neg h5]
      simp [h1, h2, h3, h4]
    · rw [if_neg hx, if_neg h5]
      simp [h1]
  · simp [Content.func?, Content.elemData?] at hf
  · simp [Content.func?, Content.elemData?] at hf

theorem safeE_kind_ne_cite (lvl : Nat) (e : ElemData) (h : safeE lvl e = true) :
    e.kind ≠ .cite := by
  unfold safeE at h
  simp only [Bool.and_eq_true, decide_eq_true_eq] at h
  exact h.1.1

theorem safeE_kind_ne_items (lvl : Nat) (h2 : 2 ≤ lvl) (e : ElemData)
    (h : safeE lvl e = true) :
    e.kind ≠ .listItem ∧ e.kind ≠ .enumItem ∧ e.kind ≠ .termItem := by
  unfold safeE at h
  rw [if_pos h2] at h
  simp only [Bool.and_eq_true, decide_eq_true_eq] at h
  refine ⟨?_, ?_, ?_⟩ <;> tauto

theorem safeE_parSafe (e : ElemData) (h : safeE 3 e = true) :
    parSafeE e = true := by
  unfold safeE at h
  rw [if_pos (by omega), if_pos (by omega)] at h
  simp only [Bool.and_eq_true] at h
  exact h.2

theorem inert_mkElemC (k : ElemKind) (cp : Caps) (bh : Behaviour)
    (body : List Content) (sp : Option Nat) (h1 : cp.canShow = false)
    (h2 : cp.canShowSet = false) :
    inertC (mkElemC k cp bh body sp) = true := by
  show (!(({ Header.fresh with span := sp } : Header)).needsPrep &&
    inertE (.mk k cp [] false none false false false bh body emptyContent
      Styles.empty)) = true
  simp [Header.fresh, inertE, ElemData.caps, h1, h2]

theorem inert_withTight (c : Content) (t : Bool) :
    inertC (c.withTight t) = inertC c := by
  rcases c with ⟨hd, bd⟩
  rcases bd with e | cs | cm
  · rcases e with ⟨k, cp, tx, w, p, tg, bf, sy, bh, b, so, ss⟩
    rfl
  · rfl
  · rfl

theorem safe_withTight (lvl : Nat) (c : Content) (t : Bool) :
    safeC lvl (c.withTight t) = safeC lvl c := by
  rcases c with ⟨hd, bd⟩
  rcases bd with e | cs | cm
  · rcases e with ⟨k, cp, tx, w, p, tg, bf, sy, bh, b, so, ss⟩
    rfl
  · rfl
  · rfl

theorem stagedOK_mem (kinds : List ElemKind) (l : List (Content × StyleChain))
    (h : stagedOK kinds l = true) :
    ∀ p ∈ l, inertC p.1 = true ∧ rfChain p.2 = true ∧
      safeC 1 p.1 = true ∧ safeC 2 p.1 = true := by
  unfold stagedOK at h
  rw [List.all_eq_true] at h
  intro p hp
  have := h p hp
  simp only [Bool.and_eq_true] at this
  exact ⟨this.1.1.1.1, this.1.1.1.2, this.1.1.2, this.1.2⟩

theorem stagedOK_append (kinds : List ElemKind)
    (l : List (Content × StyleChain)) (p : Content × StyleChain)
    (hl : stagedOK kinds l = true) (hp1 : inertC p.1 = true)
    (hp2 : rfChain p.2 = true) (hp3 : safeC 1 p.1 = true)
    (hp4 : safeC 2 p.1 = true) (k : ElemKind) (hk : p.1.func? = some k)
    (hmem : kinds.contains k = true) :
    stagedOK kinds (l ++ [p]) = true := by
  unfold stagedOK at hl ⊢
  rw [List.all_append, hl]
  simp only [List.all_cons, List.all_nil, Bool.true_and, Bool.and_true]
  rw [hk, hp1, hp2, hp3, hp4]
  show (true && true && true && true && kinds.contains k) = true
  rw [hmem]
  rfl

theorem stagedOK_filter (kinds : List ElemKind)
    (l : List (Content × StyleChain)) (q : Content × StyleChain → Bool)
    (h : stagedOK kinds l = true) :
    stagedOK kinds (l.filter q) = true := by
  unfold stagedOK at h ⊢
  rw [List.all_eq_true] at h ⊢
  intro p hp
  exact h p (List.mem_of_mem_filter hp)

theorem mem_commonSuffix2 (a b : List Styles) :
    ∀ x ∈ commonSuffix2 a b, x ∈ a := by
  intro x hx
  unfold commonSuffix2 at hx
  rw [List.mem_reverse] at hx
  rw [List.mem_map] at hx
  rcases hx with ⟨pr, hpr, hfst⟩
  have hz : pr ∈ a.reverse.zip b.reverse :=
    (List.takeWhile_prefix _).subset hpr
  have := (List.of_mem_zip hz).1
  rw [List.mem_reverse] at this
  rw [← hfst]
  exact this

theorem rf_sharedTrunk (ls : List StyleChain)
    (h : ∀ ch ∈ ls, rfChain ch = true) :
    rfChain ⟨sharedTrunk ls⟩ = true := by
  rcases ls with _ | ⟨c, cs⟩
  · rfl
  · show (List.foldl (fun acc c2 => commonSuffix2 acc c2.links) c.links cs).all
      recipeFreeS = true
    have hc : c.links.all recipeFreeS = true := h c (by simp)
    clear h
    induction cs generalizing c with
    | nil => exact hc
    | cons d ds ih =>
        simp only [List.foldl_cons]
        have hstep : (commonSuffix2 c.links d.links).all recipeFreeS = true := by
          rw [List.all_eq_true] at hc ⊢
          intro x hx
          exact hc x (mem_commonSuffix2 _ _ x hx)
        exact ih ⟨commonSuffix2 c.links d.links⟩ hstep

theorem rf_chainWith (s : StyleChain) (m : Styles) (hs : rfChain s = true)
    (hm : recipeFreeS m = true) : rfChain (s.chainWith m) = true := by
  unfold rfChain StyleChain.chainWith at *
  simp only [List.all_cons, Bool.and_eq_true]
  exact ⟨hm, hs⟩

/-- Reduction of `Builder::accept` when realization yields nothing: the
walk proceeds to the dispatch chain. -/
theorem accept_dispatch (f : Nat) (st : St) (c : Content) (s : StyleChain)
    (hre : realize st.engine (mathWrap c) s = (st.engine, none)) :
    accept (f + 1) st c s =
      (match (mathWrap c).toStyled? with
       | some pr => styledGo f st pr.1 pr.2 s
       | none =>
         match (mathWrap c).toSequence? with
         | some children => acceptSeq f st children s
         | none =>
           match st.builder.cites.acceptC (mathWrap c) s with
           | some cb => .ok { st with builder := { st.builder with cites := cb } }
           | none =>
             match interruptCites f st with
             | .error e => .error e
             | .ok st1 =>
               match st1.builder.list.acceptL (mathWrap c) s with
               | some lb =>
                   .ok { st1 with
                     builder := { st1.builder with list := lb },
                     viol := st1.viol || !st1.builder.cites.items.isEmpty }
               | none =>
                 match interruptList f st1 with
                 | .error e => .error e
                 | .ok st2 =>
                   match st2.builder.list.acceptL (mathWrap c) s with
                   | some lb =>
                       .ok { st2 with
                         builder := { st2.builder with list := lb },
                         viol := st2.viol || !st2.builder.cites.items.isEmpty }
                   | none =>
                     match st2.builder.par.acceptP (mathWrap c) s with
                     | some pb =>
                         .ok { st2 with
                           builder := { st2.builder with par := pb },
                           viol := st2.viol || !st2.builder.cites.items.isEmpty ||
                             !st2.builder.list.items.isEmpty }
                     | none =>
                       match interruptPar f st2 with
                       | .error e => .error e
                       | .ok st3 =>
                         match st3.builder.flow.acceptF (mathWrap c) s with
                         | some fb =>
                             .ok { st3 with
                               builder := { st3.builder with flow := fb },
                               viol := st3.viol ||
                                 !st3.builder.cites.items.isEmpty ||
                                 !st3.builder.list.items.isEmpty ||
                                 !st3.builder.par.bb.items.isEmpty }
                         | none =>
                           match interruptPage f st3
                               (if ((match (mathWrap c).elemData? with
                                     | some e => (e.kind == ElemKind.pagebreak) && !e.weak
                                     | none => false : Bool)) = true then some s
                                else none)
                               false with
                           | .error e => .error e
                           | .ok st4 =>
                             match st4.builder.doc with
                             | some d =>
                                 match d.acceptD (mathWrap c) s with
                                 | some d' =>
                                     .ok { st4 with
                                       builder := { st4.builder with doc := some d' } }
                                 | none => fallthroughErr (mathWrap c)
                             | none => fallthroughErr (mathWrap c)) := by
  simp only [accept]
  rw [hre]

theorem StInv_parts (st : St) (h : StInvB st = true) :
    st.viol = false ∧ stagedOK [.space, .meta] st.builder.cites.staged = true ∧
    rfChain st.builder.cites.styles = true ∧
    stagedOK [.space, .parbreak] st.builder.list.staged = true ∧
    (st.builder.list.items.all fun p => rfChain p.2) = true ∧
    (st.builder.par.bb.items.all fun p => rfChain p.2) = true ∧
    (st.builder.flow.bb.items.all fun p => rfChain p.2) = true := by
  unfold StInvB at h
  simp only [Bool.and_eq_true, Bool.not_eq_true'] at h
  refine ⟨?_, ?_, ?_, ?_, ?_, ?_, ?_⟩ <;> tauto

theorem StInv_build (st : St) (h1 : st.viol = false)
    (h2 : stagedOK [.space, .meta] st.builder.cites.staged = true)
    (h3 : rfChain st.builder.cites.styles = true)
    (h4 : stagedOK [.space, .parbreak] st.builder.list.staged = true)
    (h5 : (st.builder.list.items.all fun p => rfChain p.2) = true)
    (h6 : (st.builder.par.bb.items.all fun p => rfChain p.2) = true)
    (h7 : (st.builder.flow.bb.items.all fun p => rfChain p.2) = true) :
    StInvB st = true := by
  unfold StInvB
  rw [h1, h2, h3, h4, h5, h6, h7]
  rfl

theorem isK_false_of_ne (c : Content) (e : ElemData) (k : ElemKind)
    (he : c.elemData? = some e) (hne : e.kind ≠ k) : c.isK k = false := by
  unfold Content.isK Content.func?
  rw [he]
  simp [hne]

theorem isK_false_of_none (c : Content) (he : c.elemData? = none)
    (k : ElemKind) : c.isK k = false := by
  unfold Content.isK Content.func?
  rw [he]
  simp

theorem acceptC_none (b : CiteGroupBuilder) (c : Content) (s : StyleChain)
    (hempty : b.items = []) (hkind : c.isK .cite = false) :
    b.acceptC c s = none := by
  unfold CiteGroupBuilder.acceptC
  rw [if_neg (by simp [hempty]), if_neg (by simp [hkind])]

theorem acceptL_none (b : ListBuilder) (c : Content) (s : StyleChain)
    (hempty : b.items = []) (hitem : isItemKind c = false) :
    b.acceptL c s = none := by
  unfold ListBuilder.acceptL
  rw [if_neg (by simp [hempty]), if_neg (by simp [hitem])]

theorem acceptP_none_par (b : ParBuilder) (c : Content) (s : StyleChain)
    (h : ∀ e, c.elemData? = some e → parSafeE e = true) :
    b.acceptP c s = none := by
  unfold ParBuilder.acceptP
  rcases he : c.elemData? with _ | e
  · rw [if_neg (by simp [isK_false_of_none c he])]
    rw [if_neg]
    simp [isK_false_of_none c he]
  · have hp := h e he
    unfold parSafeE at hp
    simp only [Bool.and_eq_true, Bool.or_eq_true, decide_eq_true_eq,
      Bool.not_eq_true'] at hp
    rw [if_neg (by simp [isK_false_of_ne c e .meta he (by tauto)])]
    rw [if_neg]
    simp only [Bool.or_eq_true, not_or]
    refine ⟨⟨⟨⟨⟨⟨?_, ?_⟩, ?_⟩, ?_⟩, ?_⟩, ?_⟩, ?_⟩
    · simp [isK_false_of_ne c e .space he (by tauto)]
    · simp [isK_false_of_ne c e .text he (by tauto)]
    · simp [isK_false_of_ne c e .h he (by tauto)]
    · simp [isK_false_of_ne c e .linebreak he (by tauto)]
    · simp [isK_false_of_ne c e .smartQuote he (by tauto)]
    · rcases hp.1.2 with hq | hq
      · simp [hq]
      · simp [hq]
    · simp [isK_false_of_ne c e .boxK he (by tauto)]

theorem safe3_parSafe (c : Content) (h : safeC 3 c = true) :
    ∀ e, c.elemData? = some e → parSafeE e = true := by
  intro e he
  rcases c with ⟨hd, bd⟩
  rcases bd with e2 | cs | cm
  · simp only [Content.elemData?] at he
    injection he with he
    subst he
    exact safeE_parSafe _ (by simpa [safeC, safeB] using h)
  · simp [Content.elemData?] at he
  · simp [Content.elemData?] at he

theorem safe_kind_facts (lvl : Nat) (c : Content) (h : safeC lvl c = true)
    (e : ElemData) (he : c.elemData? = some e) : safeE lvl e = true := by
  rcases c with ⟨hd, bd⟩
  rcases bd with e2 | cs | cm
  · simp only [Content.elemData?] at he
    injection he with he
    subst he
    simpa [safeC, safeB] using h
  · simp [Content.elemData?] at he
  · simp [Content.elemData?] at he

theorem prodSafe (bh : Behaviour) (body : List Content) (sp : Option Nat) :
    (inertC (mkElemC .citeGroup capsLayS bh body sp) = true ∧
      safeC 1 (mkElemC .citeGroup capsLayS bh body sp) = true ∧
      safeC 2 (mkElemC .citeGroup capsLayS bh body sp) = true ∧
      safeC 3 (mkElemC .citeGroup capsLayS bh body sp) = true) ∧
    (inertC (mkElemC .list capsLayM bh body sp) = true ∧
      safeC 2 (mkElemC .list capsLayM bh body sp) = true) ∧
    (inertC (mkElemC .enum capsLayM bh body sp) = true ∧
      safeC 2 (mkElemC .enum capsLayM bh body sp) = true) ∧
    (inertC (mkElemC .terms capsLayM bh body sp) = true ∧
      safeC 2 (mkElemC .terms capsLayM bh body sp) = true) ∧
    (inertC (mkElemC .par Caps.none bh body sp) = true ∧
      safeC 3 (mkElemC .par Caps.none bh body sp) = true) ∧
    (inertC (mkElemC .page Caps.none bh body sp) = true ∧
      safeC 3 (mkElemC .page Caps.none bh body sp) = true) ∧
    (inertC emptyContent = true ∧ safeC 2 emptyContent = true ∧
      safeC 3 emptyContent = true) := by
  refine ⟨⟨rfl, rfl, rfl, rfl⟩, ⟨rfl, rfl⟩, ⟨rfl, rfl⟩, ⟨rfl, rfl⟩,
    ⟨rfl, rfl⟩, ⟨rfl, rfl⟩, ⟨rfl, rfl, rfl⟩⟩

theorem finishL_inert_safe (b : ListBuilder) :
    inertC (b.finishL).1 = true ∧ safeC 2 (b.finishL).1 = true := by
  simp only [ListBuilder.finishL]
  split
  · exact ⟨rfl, rfl⟩
  · split
    · exact ⟨rfl, rfl⟩
    · split
      · exact ⟨rfl, rfl⟩
      · split
        · exact ⟨rfl, rfl⟩
        · exact ⟨rfl, rfl⟩

theorem finishL_rf (b : ListBuilder)
    (h : (b.items.all fun p => rfChain p.2) = true) :
    rfChain (b.finishL).2 = true := by
  have hsh : rfChain ⟨sharedTrunk (b.items.map Prod.snd)⟩ = true := by
    apply rf_sharedTrunk
    intro ch hch
    rw [List.mem_map] at hch
    rcases hch with ⟨p, hp, hpc⟩
    rw [List.all_eq_true] at h
    rw [← hpc]
    exact h p hp
  simp only [ListBuilder.finishL]
  split
  · exact hsh
  · split
    · exact hsh
    · split
      · exact hsh
      · split
        · exact hsh
        · exact hsh

theorem finishP_props (b : ParBuilder)
    (h : (b.bb.items.all fun p => rfChain p.2) = true) :
    inertC (b.finishP).1 = true ∧ safeC 3 (b.finishP).1 = true ∧
    rfChain (b.finishP).2 = true := by
  refine ⟨(prodSafe _ _ _).2.2.2.2.1.1, (prodSafe _ _ _).2.2.2.2.1.2, ?_⟩
  apply rf_sharedTrunk
  intro ch hch
  rw [List.mem_map] at hch
  rcases hch with ⟨p, hp, hpc⟩
  rw [List.all_eq_true] at h
  rw [← hpc]
  exact h p hp

theorem finishC_props (b : CiteGroupBuilder)
    (h : rfChain b.styles = true) :
    inertC (b.finishC).1 = true ∧ safeC 1 (b.finishC).1 = true ∧
    safeC 2 (b.finishC).1 = true ∧ safeC 3 (b.finishC).1 = true ∧
    rfChain (b.finishC).2 = true :=
  ⟨(prodSafe _ _ _).1.1, (prodSafe _ _ _).1.2.1, (prodSafe _ _ _).1.2.2.1,
    (prodSafe _ _ _).1.2.2.2, h⟩

theorem func?_some_elem (c : Content) (k : ElemKind) (h : c.func? = some k) :
    ∃ e, c.elemData? = some e ∧ e.kind = k := by
  rcases c with ⟨hd, bd⟩
  rcases bd with e | cs | cm
  · refine ⟨e, rfl, ?_⟩
    simp only [Content.func?, Content.elemData?, Option.map] at h
    injection h
  · simp [Content.func?, Content.elemData?] at h
  · simp [Content.func?, Content.elemData?] at h

theorem safe_notCite (lvl : Nat) (c : Content) (h : safeC lvl c = true) :
    c.isK .cite = false := by
  rcases hf : c.func? with _ | k
  · simp [Content.isK, hf]
  · obtain ⟨e, he, hk⟩ := func?_some_elem c k hf
    have hne := safeE_kind_ne_cite lvl e (safe_kind_facts lvl c h e he)
    rw [hk] at hne
    simp [Content.isK, hf, Option.some_inj]
    intro hx
    exact hne hx

theorem safe_notItem (lvl : Nat) (hl : 2 ≤ lvl) (c : Content)
    (h : safeC lvl c = true) : isItemKind c = false := by
  unfold isItemKind
  rcases hf : c.func? with _ | k
  · simp [Content.isK, hf]
  · obtain ⟨e, he, hk⟩ := func?_some_elem c k hf
    obtain ⟨h1, h2, h3⟩ :=
      safeE_kind_ne_items lvl hl e (safe_kind_facts lvl c h e he)
    rw [hk] at h1 h2 h3
    simp only [Content.isK, hf, Bool.or_eq_false_iff, decide_eq_false_iff_not,
      Option.some_inj]
    refine ⟨⟨?_, ?_⟩, ?_⟩ <;> (intro hx; first
      | exact h1 hx | exact h2 hx | exact h3 hx)

theorem push_all_rf (b : BehavedBuilder) (c : Content) (s : StyleChain)
    (hb : (b.items.all fun p => rfChain p.2) = true) (hs : rfChain s = true) :
    ((b.push c s).items.all fun p => rfChain p.2) = true := by
  show ((b.items ++ [(c, s)]).all fun p => rfChain p.2) = true
  rw [List.all_append, hb]
  simp [hs]

theorem svbFinish_rf (items : List (Content × StyleChain))
    (h : (items.all fun p => rfChain p.2) = true) :
    rfChain (svbFinish items).2 = true := by
  apply rf_sharedTrunk
  intro ch hch
  rw [List.mem_map] at hch
  rcases hch with ⟨p, hp, hpc⟩
  rw [List.all_eq_true] at h
  rw [← hpc]
  exact h p hp

theorem isK_func? (c : Content) (k : ElemKind) (h : c.isK k = true) :
    c.func? = some k := by
  simpa [Content.isK] using h

/-- Emptiness of the citation group builder of a walk state. -/
def citesEmpty (st : St) : Prop := st.builder.cites.items = []

/-- Emptiness of the list builder of a walk state. -/
def listEmpty (st : St) : Prop := st.builder.list.items = []

/-- Emptiness of the paragraph builder of a walk state. -/
def parEmpty (st : St) : Prop := st.builder.par.bb.items = []

theorem toStyled?_inert (c : Content) (pr : Content × Styles)
    (hi : inertC c = true) (h : c.toStyled? = some pr) :
    inertC pr.1 = true ∧ recipeFreeS pr.2 = true := by
  rcases c with ⟨hd, bd⟩
  rcases bd with e | cs | ⟨e, m⟩
  · exact Option.noConfusion h
  · exact Option.noConfusion h
  · simp only [Content.toStyled?] at h
    injection h with h
    subst h
    simp only [inertC, inertB, Bool.and_eq_true] at hi
    exact ⟨hi.2.1, hi.2.2⟩

theorem toStyled?_safe (lvl : Nat) (c : Content) (pr : Content × Styles)
    (hsf : safeC lvl c = true) (h : c.toStyled? = some pr) :
    safeC lvl pr.1 = true := by
  rcases c with ⟨hd, bd⟩
  rcases bd with e | cs | ⟨e, m⟩
  · exact Option.noConfusion h
  · exact Option.noConfusion h
  · simp only [Content.toStyled?] at h
    injection h with h
    subst h
    simpa [safeC, safeB] using hsf

theorem toSequence?_inert (c : Content) (cs : List Content)
    (hi : inertC c = true) (h : c.toSequence? = some cs) :
    inertL cs = true := by
  rcases c with ⟨hd, bd⟩
  rcases bd with e | cs2 | ⟨e, m⟩
  · exact Option.noConfusion h
  · simp only [Content.toSequence?] at h
    injection h with h
    subst h
    simp only [inertC, inertB, Bool.and_eq_true] at hi
    exact hi.2
  · exact Option.noConfusion h

theorem toSequence?_safe (lvl : Nat) (c : Content) (cs : List Content)
    (hsf : safeC lvl c = true) (h : c.toSequence? = some cs) :
    safeL lvl cs = true := by
  rcases c with ⟨hd, bd⟩
  rcases bd with e | cs2 | ⟨e, m⟩
  · exact Option.noConfusion h
  · simp only [Content.toSequence?] at h
    injection h with h
    subst h
    simpa [safeC, safeB] using hsf
  · exact Option.noConfusion h

theorem inertInv : ∀ f : Nat,
    (∀ st c s st', StInvB st = true → inertC c = true → rfChain s = true →
      accept f st c s = .ok st' →
      StInvB st' = true ∧
      (safeC 1 c = true → citesEmpty st → citesEmpty st') ∧
      (safeC 2 c = true → citesEmpty st → listEmpty st →
        citesEmpty st' ∧ listEmpty st') ∧
      (safeC 3 c = true → citesEmpty st → listEmpty st → parEmpty st →
        citesEmpty st' ∧ listEmpty st' ∧ parEmpty st')) ∧
    (∀ st cs s st', StInvB st = true → inertL cs = true → rfChain s = true →
      acceptSeq f st cs s = .ok st' →
      StInvB st' = true ∧
      (safeL 1 cs = true → citesEmpty st → citesEmpty st') ∧
      (safeL 2 cs = true → citesEmpty st → listEmpty st →
        citesEmpty st' ∧ listEmpty st') ∧
      (safeL 3 cs = true → citesEmpty st → listEmpty st → parEmpty st →
        citesEmpty st' ∧ listEmpty st' ∧ parEmpty st')) ∧
    (∀ st c m s st', StInvB st = true → inertC c = true →
      recipeFreeS m = true → rfChain s = true → styledGo f st c m s = .ok st' →
      StInvB st' = true ∧
      (safeC 1 c = true → citesEmpty st → citesEmpty st') ∧
      (safeC 2 c = true → citesEmpty st → listEmpty st →
        citesEmpty st' ∧ listEmpty st') ∧
      (safeC 3 c = true → citesEmpty st → listEmpty st → parEmpty st →
        citesEmpty st' ∧ listEmpty st' ∧ parEmpty st')) ∧
    (∀ st m o st', StInvB st = true →
      (∀ ch, o = some ch → rfChain ch = true) →
      interruptStyle f st m o = .ok st' →
      StInvB st' = true ∧
      (citesEmpty st → citesEmpty st') ∧
      (citesEmpty st → listEmpty st → citesEmpty st' ∧ listEmpty st') ∧
      (citesEmpty st → listEmpty st → parEmpty st →
        citesEmpty st' ∧ listEmpty st' ∧ parEmpty st')) ∧
    (∀ st st', StInvB st = true → interruptCites f st = .ok st' →
      StInvB st' = true ∧ citesEmpty st' ∧ (citesEmpty st → st' = st)) ∧
    (∀ st ps st', StInvB st = true →
      (∀ p ∈ ps, inertC p.1 = true ∧ rfChain p.2 = true ∧
        safeC 1 p.1 = true ∧ safeC 2 p.1 = true) →
      replay f st ps = .ok st' →
      StInvB st' = true ∧
      (citesEmpty st → citesEmpty st') ∧
      (citesEmpty st → listEmpty st → citesEmpty st' ∧ listEmpty st')) ∧
    (∀ st st', StInvB st = true → interruptList f st = .ok st' →
      StInvB st' = true ∧ citesEmpty st' ∧ listEmpty st' ∧
      (citesEmpty st → listEmpty st → st' = st)) ∧
    (∀ st st', StInvB st = true → interruptPar f st = .ok st' →
      StInvB st' = true ∧ citesEmpty st' ∧ listEmpty st' ∧ parEmpty st' ∧
      (citesEmpty st → listEmpty st → parEmpty st → st' = st)) ∧
    (∀ st o l st', StInvB st = true →
      (∀ ch, o = some ch → rfChain ch = true) →
      interruptPage f st o l = .ok st' →
      StInvB st' = true ∧ citesEmpty st' ∧ listEmpty st' ∧ parEmpty st') := by
  intro f
  induction f with
  | zero =>
      refine ⟨?_, ?_, ?_, ?_, ?_, ?_, ?_, ?_, ?_⟩
      · intro st c s st' _ _ _ h; simp only [accept] at h
        exact Except.noConfusion h
      · intro st cs s st' _ _ _ h; simp only [acceptSeq] at h
        exact Except.noConfusion h
      · intro st c m s st' _ _ _ _ h; simp only [styledGo] at h
        exact Except.noConfusion h
      · intro st m o st' _ _ h; simp only [interruptStyle] at h
        exact Except.noConfusion h
      · intro st st' _ h; simp only [interruptCites] at h
        exact Except.noConfusion h
      · intro st ps st' _ _ h; simp only [replay] at h
        exact Except.noConfusion h
      · intro st st' _ h; simp only [interruptList] at h
        exact Except.noConfusion h
      · intro st st' _ h; simp only [interruptPar] at h
        exact Except.noConfusion h
      · intro st o l st' _ _ h; simp only [interruptPage] at h
        exact Except.noConfusion h
  | succ f ih =>
      obtain ⟨ihA, ihSeq, ihSty, ihIS, ihIC, ihIR, ihIL, ihIP, ihPg⟩ := ih
      refine ⟨?_, ?_, ?_, ?_, ?_, ?_, ?_, ?_, ?_⟩
      · -- accept
        intro st c s st' hinv hc hs h
        have hre : realize st.engine (mathWrap c) s = (st.engine, none) :=
          realize_none st.engine (mathWrap c) s (inert_mathWrap c hc) hs
        have hS1 : safeC 1 c = true → safeC 1 (mathWrap c) = true :=
          fun hx => safe_mathWrap 1 (by omega) c hx
        have hS2 : safeC 2 c = true → safeC 2 (mathWrap c) = true :=
          fun hx => safe_mathWrap 2 (by omega) c hx
        have hS3 : safeC 3 c = true → safeC 3 (mathWrap c) = true :=
          fun hx => by rw [mathWrap_eq_of_safe3 c hx]; exact hx
        rw [accept_dispatch f st c s hre] at h
        split at h
        · -- styled node
          rename_i pr heqSty
          obtain ⟨hpi, hpm⟩ := toStyled?_inert _ pr (inert_mathWrap c hc) heqSty
          have HS := ihSty st pr.1 pr.2 s st' hinv hpi hpm hs h
          refine ⟨HS.1, ?_, ?_, ?_⟩
          · intro hsafe hcE
            exact HS.2.1 (toStyled?_safe 1 _ pr (hS1 hsafe) heqSty) hcE
          · intro hsafe hcE hlE
            exact HS.2.2.1 (toStyled?_safe 2 _ pr (hS2 hsafe) heqSty) hcE hlE
          · intro hsafe hcE hlE hpE
            exact HS.2.2.2 (toStyled?_safe 3 _ pr (hS3 hsafe) heqSty) hcE hlE hpE
        · split at h
          · -- sequence node
            rename_i children heqSeq
            have hli := toSequence?_inert _ children (inert_mathWrap c hc) heqSeq
            have HS := ihSeq st children s st' hinv hli hs h
            refine ⟨HS.1, ?_, ?_, ?_⟩
            · intro hsafe hcE
              exact HS.2.1 (toSequence?_safe 1 _ children (hS1 hsafe) heqSeq) hcE
            · intro hsafe hcE hlE
              exact HS.2.2.1 (toSequence?_safe 2 _ children (hS2 hsafe) heqSeq)
                hcE hlE
            · intro hsafe hcE hlE hpE
              exact HS.2.2.2 (toSequence?_safe 3 _ children (hS3 hsafe) heqSeq)
                hcE hlE hpE
          · split at h
            · -- accepted by the citation builder
              rename_i cb heqC
              injection h with h
              subst h
              have hparts := StInv_parts st hinv
              unfold CiteGroupBuilder.acceptC at heqC
              split at heqC
              · -- staged
                rename_i hcond
                injection heqC with heqC
                subst heqC
                rw [Bool.and_eq_true, Bool.or_eq_true] at hcond
                have hinv2 : StInvB { st with builder := { st.builder with
                    cites := { st.builder.cites with staged :=
                      st.builder.cites.staged ++ [(mathWrap c, s)] } } } = true := by
                  apply StInv_build
                  · exact hparts.1
                  · rcases hcond.2 with hk | hk
                    · exact stagedOK_append _ _ _ hparts.2.1
                        (inert_mathWrap c hc) hs
                        (safeC_of_kind 1 (by omega) _ .space (isK_func? _ _ hk)
                          (by decide) (by decide) (by decide) (by decide))
                        (safeC_of_kind 2 (by omega) _ .space (isK_func? _ _ hk)
                          (by decide) (by decide) (by decide) (by decide))
                        .space (isK_func? _ _ hk) (by decide)
                    · exact stagedOK_append _ _ _ hparts.2.1
                        (inert_mathWrap c hc) hs
                        (safeC_of_kind 1 (by omega) _ .meta (isK_func? _ _ hk)
                          (by decide) (by decide) (by decide) (by decide))
                        (safeC_of_kind 2 (by omega) _ .meta (isK_func? _ _ hk)
                          (by decide) (by decide) (by decide) (by decide))
                        .meta (isK_func? _ _ hk) (by decide)
                  · exact hparts.2.2.1
                  · exact hparts.2.2.2.1
                  · exact hparts.2.2.2.2.1
                  · exact hparts.2.2.2.2.2.1
                  · exact hparts.2.2.2.2.2.2
                exact ⟨hinv2, fun _ hcE => hcE, fun _ hcE hlE => ⟨hcE, hlE⟩,
                  fun _ hcE hlE hpE => ⟨hcE, hlE, hpE⟩⟩
              · split at heqC
                · -- accepted a citation
                  rename_i hcond2
                  injection heqC with heqC
                  subst heqC
                  have hinv2 : StInvB { st with builder := { st.builder with
                      cites := ⟨if st.builder.cites.items.isEmpty then s
                          else st.builder.cites.styles,
                        st.builder.cites.items ++ [mathWrap c],
                        st.builder.cites.staged.filter
                          fun p => !p.1.isK .space⟩ } } = true := by
                    apply StInv_build
                    · exact hparts.1
                    · exact stagedOK_filter _ _ _ hparts.2.1
                    · show rfChain (if st.builder.cites.items.isEmpty then s
                        else st.builder.cites.styles) = true
                      split
                      · exact hs
                      · exact hparts.2.2.1
                    · exact hparts.2.2.2.1
                    · exact hparts.2.2.2.2.1
                    · exact hparts.2.2.2.2.2.1
                    · exact hparts.2.2.2.2.2.2
                  refine ⟨hinv2, ?_, ?_, ?_⟩
                  · intro hsafe hcE
                    exfalso
                    rw [safe_notCite 1 _ (hS1 hsafe)] at hcond2
                    exact Bool.noConfusion hcond2
                  · intro hsafe hcE hlE
                    exfalso
                    rw [safe_notCite 2 _ (hS2 hsafe)] at hcond2
                    exact Bool.noConfusion hcond2
                  · intro hsafe hcE hlE hpE
                    exfalso
                    rw [safe_notCite 3 _ (hS3 hsafe)] at hcond2
                    exact Bool.noConfusion hcond2
                · exact Option.noConfusion heqC
            · split at h
              · exact Except.noConfusion h
              · rename_i st1 heqIC
                have H1 := ihIC st st1 hinv heqIC
                have hparts1 := StInv_parts st1 H1.1
                have hce1 : st1.builder.cites.items = [] := H1.2.1
                split at h
                · -- accepted by the list builder (first attempt)
                  rename_i lb heqL
                  injection h with h
                  subst h
                  have hviol : (st1.viol ||
                      !st1.builder.cites.items.isEmpty) = false := by
                    rw [hparts1.1, hce1]
                    rfl
                  unfold ListBuilder.acceptL at heqL
                  split at heqL
                  · -- staged
                    rename_i hcond
                    injection heqL with heqL
                    subst heqL
                    rw [Bool.and_eq_true, Bool.or_eq_true] at hcond
                    refine ⟨?_, ?_, ?_, ?_⟩
                    · apply StInv_build
                      · exact hviol
                      · exact hparts1.2.1
                      · exact hparts1.2.2.1
                      · rcases hcond.2 with hk | hk
                        · exact stagedOK_append _ _ _ hparts1.2.2.2.1
                            (inert_mathWrap c hc) hs
                            (safeC_of_kind 1 (by omega) _ .space
                              (isK_func? _ _ hk) (by decide) (by decide)
                              (by decide) (by decide))
                            (safeC_of_kind 2 (by omega) _ .space
                              (isK_func? _ _ hk) (by decide) (by decide)
                              (by decide) (by decide))
                            .space (isK_func? _ _ hk) (by decide)
                        · exact stagedOK_append _ _ _ hparts1.2.2.2.1
                            (inert_mathWrap c hc) hs
                            (safeC_of_kind 1 (by omega) _ .parbreak
                              (isK_func? _ _ hk) (by decide) (by decide)
                              (by decide) (by decide))
                            (safeC_of_kind 2 (by omega) _ .parbreak
                              (isK_func? _ _ hk) (by decide) (by decide)
                              (by decide) (by decide))
                            .parbreak (isK_func? _ _ hk) (by decide)
                      · exact hparts1.2.2.2.2.1
                      · exact hparts1.2.2.2.2.2.1
                      · exact hparts1.2.2.2.2.2.2
                    · intro hsafe hcE
                      exact H1.2.1
                    · intro hsafe hcE hlE
                      exfalso
                      have he := H1.2.2 hcE
                      have hne := hcond.1
                      rw [he] at hne
                      have hle : st.builder.list.items = [] := hlE
                      rw [hle] at hne
                      simp at hne
                    · intro hsafe hcE hlE hpE
                      exfalso
                      have he := H1.2.2 hcE
                      have hne := hcond.1
                      rw [he] at hne
                      have hle : st.builder.list.items = [] := hlE
                      rw [hle] at hne
                      simp at hne
                  · split at heqL
                    · -- accepted an item
                      rename_i hcond2
                      injection heqL with heqL
                      subst heqL
                      refine ⟨?_, ?_, ?_, ?_⟩
                      · apply StInv_build
                        · exact hviol
                        · exact hparts1.2.1
                        · exact hparts1.2.2.1
                        · rfl
                        · rw [List.all_append, hparts1.2.2.2.2.1]
                          simp [hs]
                        · exact hparts1.2.2.2.2.2.1
                        · exact hparts1.2.2.2.2.2.2
                      · intro hsafe hcE
                        exact H1.2.1
                      · intro hsafe hcE hlE
                        exfalso
                        rw [Bool.and_eq_true] at hcond2
                        have hni := safe_notItem 2 (by omega) _ (hS2 hsafe)
                        rw [hni] at hcond2
                        exact Bool.noConfusion hcond2.1
                      · intro hsafe hcE hlE hpE
                        exfalso
                        rw [Bool.and_eq_true] at hcond2
                        have hni := safe_notItem 3 (by omega) _ (hS3 hsafe)
                        rw [hni] at hcond2
                        exact Bool.noConfusion hcond2.1
                    · exact Option.noConfusion heqL
                · split at h
                  · exact Except.noConfusion h
                  · rename_i st2 heqIL
                    have H2 := ihIL st1 st2 H1.1 heqIL
                    have hparts2 := StInv_parts st2 H2.1
                    have hce2 : st2.builder.cites.items = [] := H2.2.1
                    have hle2 : st2.builder.list.items = [] := H2.2.2.1
                    split at h
                    · -- accepted by the list builder (second attempt)
                      rename_i lb heqL
                      injection h with h
                      subst h
                      have hviol : (st2.viol ||
                          !st2.builder.cites.items.isEmpty) = false := by
                        rw [hparts2.1, hce2]
                        rfl
                      unfold ListBuilder.acceptL at heqL
                      split at heqL
                      · rename_i hcond
                        exfalso
                        rw [Bool.and_eq_true] at hcond
                        have hne := hcond.1
                        rw [hle2] at hne
                        simp at hne
                      · split at heqL
                        · rename_i hcond2
                          injection heqL with heqL
                          subst heqL
                          refine ⟨?_, ?_, ?_, ?_⟩
                          · apply StInv_build
                            · exact hviol
                            · exact hparts2.2.1
                            · exact hparts2.2.2.1
                            · rfl
                            · rw [List.all_append, hparts2.2.2.2.2.1]
                              simp [hs]
                            · exact hparts2.2.2.2.2.2.1
                            · exact hparts2.2.2.2.2.2.2
                          · intro hsafe hcE
                            exact H2.2.1
                          · intro hsafe hcE hlE
                            exfalso
                            rw [Bool.and_eq_true] at hcond2
                            have hni := safe_notItem 2 (by omega) _ (hS2 hsafe)
                            rw [hni] at hcond2
                            exact Bool.noConfusion hcond2.1
                          · intro hsafe hcE hlE hpE
                            exfalso
                            rw [Bool.and_eq_true] at hcond2
                            have hni := safe_notItem 3 (by omega) _ (hS3 hsafe)
                            rw [hni] at hcond2
                            exact Bool.noConfusion hcond2.1
                        · exact Option.noConfusion heqL
                    · split at h
                      · -- accepted by the paragraph builder
                        rename_i pb heqP
                        injection h with h
                        subst h
                        have hviol : (st2.viol ||
                            !st2.builder.cites.items.isEmpty ||
                            !st2.builder.list.items.isEmpty) = false := by
                          rw [hparts2.1, hce2, hle2]
                          rfl
                        have hpb : pb = ⟨st2.builder.par.bb.push (mathWrap c) s⟩ := by
                          unfold ParBuilder.acceptP at heqP
                          split at heqP
                          · split at heqP
                            · injection heqP with h2
                              exact h2.symm
                            · exact Option.noConfusion heqP
                          · split at heqP
                            · injection heqP with h2
                              exact h2.symm
                            · exact Option.noConfusion heqP
                        refine ⟨?_, ?_, ?_, ?_⟩
                        · subst hpb
                          apply StInv_build
                          · exact hviol
                          · exact hparts2.2.1
                          · exact hparts2.2.2.1
                          · exact hparts2.2.2.2.1
                          · exact hparts2.2.2.2.2.1
                          · exact push_all_rf _ _ _ hparts2.2.2.2.2.2.1 hs
                          · exact hparts2.2.2.2.2.2.2
                        · intro hsafe hcE
                          exact H2.2.1
                        · intro hsafe hcE hlE
                          exact ⟨H2.2.1, H2.2.2.1⟩
                        · intro hsafe hcE hlE hpE
                          exfalso
                          rw [acceptP_none_par st2.builder.par (mathWrap c) s
                            (safe3_parSafe _ (hS3 hsafe))] at heqP
                          exact Option.noConfusion heqP
                      · split at h
                        · exact Except.noConfusion h
                        · rename_i st3 heqIP
                          have H3 := ihIP st2 st3 H2.1 heqIP
                          have hparts3 := StInv_parts st3 H3.1
                          have hce3 : st3.builder.cites.items = [] := H3.2.1
                          have hle3 : st3.builder.list.items = [] := H3.2.2.1
                          have hpe3 : st3.builder.par.bb.items = [] := H3.2.2.2.1
                          split at h
                          · -- accepted by the flow builder
                            rename_i fb heqF
                            injection h with h
                            subst h
                            have hviol : (st3.viol ||
                                !st3.builder.cites.items.isEmpty ||
                                !st3.builder.list.items.isEmpty ||
                                !st3.builder.par.bb.items.isEmpty) = false := by
                              rw [hparts3.1, hce3, hle3, hpe3]
                              rfl
                            have hfb : (fb.bb.items.all
                                fun p => rfChain p.2) = true := by
                              simp only [FlowBuilder.acceptF] at heqF
                              split at heqF
                              · injection heqF with h2
                                rw [← h2]
                                exact hparts3.2.2.2.2.2.2
                              · split at heqF
                                · injection heqF with h2
                                  rw [← h2]
                                  exact push_all_rf _ _ _
                                    hparts3.2.2.2.2.2.2 hs
                                · split at heqF
                                  · injection heqF with h2
                                    rw [← h2]
                                    apply push_all_rf _ _ _ ?_ hs
                                    apply push_all_rf _ _ _ ?_ hs
                                    apply push_all_rf _ _ _ ?_ hs
                                    split
                                    · exact push_all_rf _ _ _
                                        hparts3.2.2.2.2.2.2 hs
                                    · exact hparts3.2.2.2.2.2.2
                                  · exact Option.noConfusion heqF
                            refine ⟨?_, ?_, ?_, ?_⟩
                            · apply StInv_build
                              · exact hviol
                              · exact hparts3.2.1
                              · exact hparts3.2.2.1
                              · exact hparts3.2.2.2.1
                              · exact hparts3.2.2.2.2.1
                              · exact hparts3.2.2.2.2.2.1
                              · exact hfb
                            · intro hsafe hcE
                              exact H3.2.1
                            · intro hsafe hcE hlE
                              exact ⟨H3.2.1, H3.2.2.1⟩
                            · intro hsafe hcE hlE hpE
                              exact ⟨H3.2.1, H3.2.2.1, H3.2.2.2.1⟩
                          · split at h
                            · exact Except.noConfusion h
                            · rename_i st4 heqPg
                              have hosafe : ∀ (bo : Bool) (ch : StyleChain),
                                  (if bo = true then some s else none) =
                                    some ch → rfChain ch = true := by
                                intro bo ch hch
                                split at hch
                                · injection hch with hch
                                  rw [← hch]
                                  exact hs
                                · exact Option.noConfusion hch
                              have H4 := ihPg st3 _ false st4 H3.1
                                (hosafe _) heqPg
                              have hparts4 := StInv_parts st4 H4.1
                              split at h
                              · -- document builder present
                                rename_i d hd2
                                split at h
                                · rename_i d2 heqD
                                  injection h with h
                                  subst h
                                  refine ⟨?_, ?_, ?_, ?_⟩
                                  · apply StInv_build
                                    · exact hparts4.1
                                    · exact hparts4.2.1
                                    · exact hparts4.2.2.1
                                    · exact hparts4.2.2.2.1
                                    · exact hparts4.2.2.2.2.1
                                    · exact hparts4.2.2.2.2.2.1
                                    · exact hparts4.2.2.2.2.2.2
                                  · intro hsafe hcE
                                    exact H4.2.1
                                  · intro hsafe hcE hlE
                                    exact ⟨H4.2.1, H4.2.2.1⟩
                                  · intro hsafe hcE hlE hpE
                                    exact ⟨H4.2.1, H4.2.2.1, H4.2.2.2⟩
                                · unfold fallthroughErr at h
                                  split at h
                                  · exact Except.noConfusion h
                                  · exact Except.noConfusion h
                              · unfold fallthroughErr at h
                                split at h
                                · exact Except.noConfusion h
                                · exact Except.noConfusion h
      · -- acceptSeq
        intro st cs s st' hinv hin hs h
        rcases cs with _ | ⟨c, rest⟩
        all_goals simp only [acceptSeq] at h
        · injection h with h
          subst h
          exact ⟨hinv, fun _ hcE => hcE, fun _ hcE hlE => ⟨hcE, hlE⟩,
            fun _ hcE hlE hpE => ⟨hcE, hlE, hpE⟩⟩
        · simp only [inertL, Bool.and_eq_true] at hin
          split at h
          · rename_i st1 heq1
            have HA := ihA st c s st1 hinv hin.1 hs heq1
            have HS := ihSeq st1 rest s st' HA.1 hin.2 hs h
            refine ⟨HS.1, ?_, ?_, ?_⟩
            · intro hsafe hcE
              simp only [safeL, Bool.and_eq_true] at hsafe
              exact HS.2.1 hsafe.2 (HA.2.1 hsafe.1 hcE)
            · intro hsafe hcE hlE
              simp only [safeL, Bool.and_eq_true] at hsafe
              obtain ⟨hc1, hl1⟩ := HA.2.2.1 hsafe.1 hcE hlE
              exact HS.2.2.1 hsafe.2 hc1 hl1
            · intro hsafe hcE hlE hpE
              simp only [safeL, Bool.and_eq_true] at hsafe
              obtain ⟨hc1, hl1, hp1⟩ := HA.2.2.2 hsafe.1 hcE hlE hpE
              exact HS.2.2.2 hsafe.2 hc1 hl1 hp1
          · exact Except.noConfusion h
      · -- styledGo
        intro st c m s st' hinv hc hm hs h
        simp only [styledGo] at h
        split at h
        · exact Except.noConfusion h
        · rename_i st1 heq1
          split at h
          · exact Except.noConfusion h
          · rename_i st2 heq2
            have hch : rfChain (s.chainWith m) = true := rf_chainWith s m hs hm
            have H1 := ihIS st m none st1 hinv
              (fun ch hx => Option.noConfusion hx) heq1
            have H2 := ihA st1 c (s.chainWith m) st2 H1.1 hc hch heq2
            have H3 := ihIS st2 m (some (s.chainWith m)) st' H2.1
              (fun ch hx => by injection hx with hx; rw [← hx]; exact hch) h
            refine ⟨H3.1, ?_, ?_, ?_⟩
            · intro hsafe hcE
              exact H3.2.1 (H2.2.1 hsafe (H1.2.1 hcE))
            · intro hsafe hcE hlE
              obtain ⟨hc1, hl1⟩ := H1.2.2.1 hcE hlE
              obtain ⟨hc2, hl2⟩ := H2.2.2.1 hsafe hc1 hl1
              exact H3.2.2.1 hc2 hl2
            · intro hsafe hcE hlE hpE
              obtain ⟨hc1, hl1, hp1⟩ := H1.2.2.2 hcE hlE hpE
              obtain ⟨hc2, hl2, hp2⟩ := H2.2.2.2 hsafe hc1 hl1 hp1
              exact H3.2.2.2 hc2 hl2 hp2
      · -- interruptStyle
        intro st m o st' hinv ho h
        simp only [interruptStyle] at h
        split at h
        · split at h
          · exact Except.noConfusion h
          · split at h
            · exact Except.noConfusion h
            · injection h with h
              subst h
              exact ⟨hinv, fun hcE => hcE, fun hcE hlE => ⟨hcE, hlE⟩,
                fun hcE hlE hpE => ⟨hcE, hlE, hpE⟩⟩
        · split at h
          · split at h
            · exact Except.noConfusion h
            · have H := ihPg st o false st' hinv ho h
              exact ⟨H.1, fun _ => H.2.1, fun _ _ => ⟨H.2.1, H.2.2.1⟩,
                fun _ _ _ => ⟨H.2.1, H.2.2.1, H.2.2.2⟩⟩
          · split at h
            · have H := ihIP st st' hinv h
              exact ⟨H.1, fun _ => H.2.1, fun _ _ => ⟨H.2.1, H.2.2.1⟩,
                fun _ _ _ => ⟨H.2.1, H.2.2.1, H.2.2.2.1⟩⟩
            · split at h
              · have H := ihIL st st' hinv h
                refine ⟨H.1, fun _ => H.2.1, fun _ _ => ⟨H.2.1, H.2.2.1⟩, ?_⟩
                intro hcE hlE hpE
                have he := H.2.2.2 hcE hlE
                rw [he]
                exact ⟨hcE, hlE, hpE⟩
              · injection h with h
                subst h
                exact ⟨hinv, fun hcE => hcE, fun hcE hlE => ⟨hcE, hlE⟩,
                  fun hcE hlE hpE => ⟨hcE, hlE, hpE⟩⟩
      · -- interruptCites
        intro st st' hinv h
        simp only [interruptCites] at h
        split at h
        · rename_i hemp
          injection h with h
          subst h
          rw [List.isEmpty_iff] at hemp
          exact ⟨hinv, hemp, fun _ => rfl⟩
        · rename_i hemp
          have hparts := StInv_parts st hinv
          split at h
          · exact Except.noConfusion h
          · rename_i stA heqA
            have hfin := finishC_props { st.builder.cites with staged := [] }
              hparts.2.2.1
            have hinv0 : StInvB { st with builder :=
                { st.builder with cites := CiteGroupBuilder.empty } } = true := by
              apply StInv_build
              · exact hparts.1
              · rfl
              · rfl
              · exact hparts.2.2.2.1
              · exact hparts.2.2.2.2.1
              · exact hparts.2.2.2.2.2.1
              · exact hparts.2.2.2.2.2.2
            have HA := ihA _ _ _ stA hinv0 hfin.1 hfin.2.2.2.2 heqA
            have hcA : citesEmpty stA := HA.2.1 hfin.2.1 rfl
            have hmem := stagedOK_mem _ _ hparts.2.1
            have HR := ihIR stA st.builder.cites.staged st' HA.1 hmem h
            refine ⟨HR.1, HR.2.1 hcA, ?_⟩
            intro hcE
            exfalso
            rw [hcE] at hemp
            simp at hemp
      · -- replay
        intro st ps st' hinv hps h
        rcases ps with _ | ⟨p, rest⟩
        all_goals simp only [replay] at h
        · injection h with h
          subst h
          exact ⟨hinv, fun hcE => hcE, fun hcE hlE => ⟨hcE, hlE⟩⟩
        · split at h
          · rename_i st1 heq1
            have hp := hps p (by simp)
            have HA := ihA st p.1 p.2 st1 hinv hp.1 hp.2.1 heq1
            have HR := ihIR st1 rest st' HA.1
              (fun q hq => hps q (by simp [hq])) h
            refine ⟨HR.1, ?_, ?_⟩
            · intro hcE
              exact HR.2.1 (HA.2.1 hp.2.2.1 hcE)
            · intro hcE hlE
              obtain ⟨hc1, hl1⟩ := HA.2.2.1 hp.2.2.2 hcE hlE
              exact HR.2.2 hc1 hl1
          · exact Except.noConfusion h
      · -- interruptList
        intro st st' hinv h
        simp only [interruptList] at h
        split at h
        · exact Except.noConfusion h
        · rename_i st1 heq1
          have H1 := ihIC st st1 hinv heq1
          have hparts1 := StInv_parts st1 H1.1
          split at h
          · rename_i hemp
            injection h with h
            subst h
            rw [List.isEmpty_iff] at hemp
            refine ⟨H1.1, H1.2.1, hemp, ?_⟩
            intro hcE hlE
            exact H1.2.2 hcE
          · rename_i hemp
            split at h
            · exact Except.noConfusion h
            · rename_i stA heqA
              have hfin := finishL_inert_safe
                { st1.builder.list with staged := [] }
              have hfrf : rfChain ((ListBuilder.finishL
                  { st1.builder.list with staged := [] }).2) = true :=
                finishL_rf _ hparts1.2.2.2.2.1
              have hinv0 : StInvB { st1 with builder :=
                  { st1.builder with list := ListBuilder.empty } } = true := by
                apply StInv_build
                · exact hparts1.1
                · exact hparts1.2.1
                · exact hparts1.2.2.1
                · rfl
                · rfl
                · exact hparts1.2.2.2.2.2.1
                · exact hparts1.2.2.2.2.2.2
              have HA := ihA _ _ _ stA hinv0 hfin.1 hfrf heqA
              obtain ⟨hcA, hlA⟩ := HA.2.2.1 hfin.2 H1.2.1 rfl
              have hmem := stagedOK_mem _ _ hparts1.2.2.2.1
              have HR := ihIR stA st1.builder.list.staged st' HA.1 hmem h
              obtain ⟨hc2, hl2⟩ := HR.2.2 hcA hlA
              refine ⟨HR.1, hc2, hl2, ?_⟩
              intro hcE hlE
              exfalso
              have he := H1.2.2 hcE
              rw [he] at hemp
              have hle : st.builder.list.items = [] := hlE
              rw [hle] at hemp
              simp at hemp
      · -- interruptPar
        intro st st' hinv h
        simp only [interruptPar] at h
        split at h
        · exact Except.noConfusion h
        · rename_i st1 heq1
          have H1 := ihIL st st1 hinv heq1
          have hparts1 := StInv_parts st1 H1.1
          split at h
          · rename_i hemp
            injection h with h
            subst h
            rw [List.isEmpty_iff] at hemp
            refine ⟨H1.1, H1.2.1, H1.2.2.1, hemp, ?_⟩
            intro hcE hlE hpE
            exact H1.2.2.2 hcE hlE
          · rename_i hemp
            have hfin := finishP_props st1.builder.par hparts1.2.2.2.2.2.1
            have hinv0 : StInvB { st1 with builder :=
                { st1.builder with par := ParBuilder.empty } } = true := by
              apply StInv_build
              · exact hparts1.1
              · exact hparts1.2.1
              · exact hparts1.2.2.1
              · exact hparts1.2.2.2.1
              · exact hparts1.2.2.2.2.1
              · rfl
              · exact hparts1.2.2.2.2.2.2
            have HA := ihA _ _ _ st' hinv0 hfin.1 hfin.2.2 h
            obtain ⟨hc2, hl2, hp2⟩ := HA.2.2.2 hfin.2.1 H1.2.1 H1.2.2.1 rfl
            refine ⟨HA.1, hc2, hl2, hp2, ?_⟩
            intro hcE hlE hpE
            exfalso
            have he := H1.2.2.2 hcE hlE
            rw [he] at hemp
            have hpe : st.builder.par.bb.items = [] := hpE
            rw [hpe] at hemp
            simp at hemp
      · -- interruptPage
        intro st o l st' hinv ho h
        simp only [interruptPage] at h
        split at h
        · exact Except.noConfusion h
        · rename_i st1 heq1
          have H1 := ihIP st st1 hinv heq1
          have hparts1 := StInv_parts st1 H1.1
          split at h
          · injection h with h
            subst h
            exact ⟨H1.1, H1.2.1, H1.2.2.1, H1.2.2.2.1⟩
          · rename_i d hd2
            split at h
            · have hinv0 : StInvB { st1 with builder :=
                  { st1.builder with flow := FlowBuilder.empty } } = true := by
                apply StInv_build
                · exact hparts1.1
                · exact hparts1.2.1
                · exact hparts1.2.2.1
                · exact hparts1.2.2.2.1
                · exact hparts1.2.2.2.2.1
                · exact hparts1.2.2.2.2.2.1
                · rfl
              have hgetD : ∀ (oo : Option StyleChain),
                  (∀ ch, oo = some ch → rfChain ch = true) →
                  rfChain (oo.getD ⟨[]⟩) = true := by
                intro oo hoo
                rcases oo with _ | ch
                · rfl
                · exact hoo ch rfl
              have hch : ∀ (bo : Bool),
                  rfChain (if bo = true then o.getD ⟨[]⟩
                    else (svbFinish st1.builder.flow.bb.items).2) = true := by
                intro bo
                rcases bo
                · exact svbFinish_rf _ hparts1.2.2.2.2.2.2
                · exact hgetD o ho
              have HA := ihA _ _ _ st' hinv0
                (prodSafe .strong _ _).2.2.2.2.2.1.1 (hch _) h
              obtain ⟨hc2, hl2, hp2⟩ := HA.2.2.2
                (prodSafe .strong _ _).2.2.2.2.2.1.2 H1.2.1 H1.2.2.1 H1.2.2.2.1
              exact ⟨HA.1, hc2, hl2, hp2⟩
            · injection h with h
              subst h
              exact ⟨H1.1, H1.2.1, H1.2.2.1, H1.2.2.2.1⟩

/-- C4 counterexample: under a chain holding a `show par` recipe, walking
the sequence `[text, block]` succeeds, yet content is fed into the flow
builder while the paragraph builder is nonempty (the monitor flag ends
`true`): the paragraph interrupt re-accepts its finalized paragraph, the
show rule rewrites it back into inline text, and that text repopulates
the paragraph builder before the block reaches the flow. -/
theorem builder_accept_cascade_cex :
    violOf (acceptSeq 12 ⟨⟨0, 0⟩, Builder.new false, false⟩
        [mkText "a", mkBlock]
        ⟨[Styles.mk [.recipeS (.mk (some (.elemSel .par))
          (.showConst (mkText "x")) none)]]⟩) = true ∧
    isOkE (acceptSeq 12 ⟨⟨0, 0⟩, Builder.new false, false⟩
        [mkText "a", mkBlock]
        ⟨[Styles.mk [.recipeS (.mk (some (.elemSel .par))
          (.showConst (mkText "x")) none)]]⟩) = true := ⟨rfl, rfl⟩

/-- C4 (amended): the structural part of the claim holds as stated — each
interrupt first invokes the next-inner interrupt (`interrupt_cites` inside
`interrupt_list`, `interrupt_list` inside `interrupt_par`, `interrupt_par`
inside `interrupt_page`), finalizes its own nonempty group, re-accepts the
product, and then replays staged content (first four conjuncts).  The
emptiness part — whenever `accept` feeds content into an outer
sub-builder, every strictly inner sub-builder is empty, as recorded by
the `viol` monitor — holds provided the accepted content is inert (no
show rule or preparation can rewrite an interrupt product) and every
style chain in play is recipe-free; without that proviso it fails, since
a show rule matching an interrupt product can repopulate an inner builder
(fifth conjunct; see the counterexample). -/
theorem builder_accept_cascade (f : Nat) :
    (∀ st, interruptCites (f + 1) st =
      if st.builder.cites.items.isEmpty then .ok st
      else
        match accept f { st with builder :=
            { st.builder with cites := CiteGroupBuilder.empty } }
            (CiteGroupBuilder.finishC { st.builder.cites with staged := [] }).1
            (CiteGroupBuilder.finishC { st.builder.cites with staged := [] }).2 with
        | .error e => .error e
        | .ok st1 => replay f st1 st.builder.cites.staged) ∧
    (∀ st, interruptList (f + 1) st =
      match interruptCites f st with
      | .error e => .error e
      | .ok st1 =>
          if st1.builder.list.items.isEmpty then .ok st1
          else
            match accept f { st1 with builder :=
                { st1.builder with list := ListBuilder.empty } }
                (ListBuilder.finishL { st1.builder.list with staged := [] }).1
                (ListBuilder.finishL { st1.builder.list with staged := [] }).2 with
            | .error e => .error e
            | .ok st2 => replay f st2 st1.builder.list.staged) ∧
    (∀ st, interruptPar (f + 1) st =
      match interruptList f st with
      | .error e => .error e
      | .ok st1 =>
          if st1.builder.par.bb.items.isEmpty then .ok st1
          else
            accept f { st1 with builder :=
                { st1.builder with par := ParBuilder.empty } }
              (ParBuilder.finishP st1.builder.par).1
              (ParBuilder.finishP st1.builder.par).2) ∧
    (∀ st o l, interruptPage (f + 1) st o l =
      match interruptPar f st with
      | .error e => .error e
      | .ok st1 =>
          match st1.builder.doc with
          | none => .ok st1
          | some d =>
              if (d.keepNext && o.isSome) ||
                  st1.builder.flow.bb.hasStrong l then
                accept f { st1 with builder :=
                    { st1.builder with flow := FlowBuilder.empty } }
                  (mkElemC .page Caps.none .strong
                    [mkElemC .flow capsLayM .strong
                      (svToVec (svbFinish st1.builder.flow.bb.items).1)
                      (firstSpan (svbFinish st1.builder.flow.bb.items).1)]
                    (firstSpan (svbFinish st1.builder.flow.bb.items).1))
                  (if (svbFinish st1.builder.flow.bb.items).2.links.isEmpty
                   then o.getD ⟨[]⟩
                   else (svbFinish st1.builder.flow.bb.items).2)
              else .ok st1) ∧
    (∀ st c s st', StInvB st = true → inertC c = true → rfChain s = true →
      accept f st c s = .ok st' →
      st'.viol = false ∧ StInvB st' = true) := by
  refine ⟨?_, ?_, ?_, ?_, ?_⟩
  · intro st
    simp only [interruptCites]
  · intro st
    simp only [interruptList]
  · intro st
    simp only [interruptPar]
  · intro st o l
    simp only [interruptPage]
  · intro st c s st' hinv hc hs h
    have H := (inertInv f).1 st c s st' hinv hc hs h
    exact ⟨(StInv_parts st' H.1).1, H.1⟩

theorem builder_accept_cascade_witness :
    StInvB ⟨⟨0, 0⟩, Builder.new true, false⟩ = true ∧
    inertC (mkText "a") = true ∧
    rfChain ⟨[]⟩ = true ∧
    (match accept 10 ⟨⟨0, 0⟩, Builder.new true, false⟩ (mkText "a") ⟨[]⟩ with
     | .ok st' => st'.viol = false ∧ StInvB st' = true
     | .error _ => False) := by
  refine ⟨rfl, rfl, rfl, ?_⟩
  rcases hok : accept 10 ⟨⟨0, 0⟩, Builder.new true, false⟩ (mkText "a") ⟨[]⟩
    with e | st'
  · have hk : isOkE (accept 10 ⟨⟨0, 0⟩, Builder.new true, false⟩
        (mkText "a") ⟨[]⟩) = true := rfl
    rw [hok] at hk
    cases hk
  · show st'.viol = false ∧ StInvB st' = true
    exact (builder_accept_cascade 10).2.2.2.2 ⟨⟨0, 0⟩, Builder.new true, false⟩
      (mkText "a") ⟨[]⟩ st' rfl rfl rfl hok

end Realize
